import Mathlib

/-!
Verification development for the go-slug source packaging library.

The definitions below are a shallow embedding of the Go source of the
repository: the slug packer/unpacker (slug.go), the path-safety helpers
(internal/escapingfs), the chunked copier (internal/copyUtil), the source
address algebra (sourceaddrs) and the source bundle builder/reader
(sourcebundle).  Paths are Unix slash-separated strings, bytes are natural
numbers below 256, and the Go standard library functions used by the code
(path.Clean, path.Join, io/fs.ValidPath, path/filepath.Rel, strings.HasPrefix,
crypto/sha256, encoding/hex) are modelled faithfully at the level of their
documented, lexical semantics.
-/

set_option maxRecDepth 8192

namespace GoSlug

/-! ## Byte-level string helpers

The Go code operates on plain strings.  We model the handful of string
primitives it uses with structurally recursive functions over the character
lists underlying Lean strings, so that every definition evaluates by kernel
reduction. -/

/-- Model of strings.HasPrefix: does s start with pre? -/
def strHasPre (s pre : String) : Bool :=
  List.isPrefixOf pre.data s.data

/-- Model of strings.HasSuffix: does s end with suf? -/
def strHasSuf (s suf : String) : Bool :=
  List.isSuffixOf suf.data s.data

/-- Splitter for slash-separated paths: semantics of Go strings.Split(s, sep)
for a one-character separator.  The first argument is the remaining input and
the second the (reversed) current segment. -/
def splitSlashAux : List Char → List Char → List String
  | [], cur => [String.mk cur.reverse]
  | c :: rest, cur =>
      if c = '/' then String.mk cur.reverse :: splitSlashAux rest []
      else splitSlashAux rest (c :: cur)

/-- Split a string on every slash, in the manner of Go strings.Split. -/
def splitSlash (s : String) : List String :=
  splitSlashAux s.data []

/-- Join segments with single slashes, in the manner of Go strings.Join. -/
def joinSlash : List String → String
  | [] => ""
  | [s] => s
  | s :: rest => s ++ "/" ++ joinSlash rest

/-- Does the path begin with a slash (Go path.IsAbs / filepath.IsAbs on
Unix)? -/
def isRooted (s : String) : Bool :=
  match s.data with
  | c :: _ => c = '/'
  | [] => false

/-! ## Model of Go path.Clean

Go's path.Clean processes a slash path left to right, dropping empty and
"." elements and resolving ".." against previously emitted elements; for a
rooted path a leading ".." is dropped at the root, for a relative path it is
kept.  We realise the same algorithm as a fold over the slash-separated
segments, keeping the accumulator in reversed order. -/

/-- Process one path segment of Go path.Clean against the (reversed)
accumulator of already-emitted segments. -/
def cleanPush (rooted : Bool) (acc : List String) (seg : String) : List String :=
  if seg = "" ∨ seg = "." then acc
  else if seg = ".." then
    if rooted then
      match acc with
      | [] => []
      | _ :: t => t
    else
      match acc with
      | [] => [".."]
      | h :: t => if h = ".." then ".." :: h :: t else t
  else seg :: acc

/-- Clean a list of path segments in the manner of Go path.Clean, returning
the emitted segments in order. -/
def cleanSegs (rooted : Bool) (segs : List String) : List String :=
  (segs.foldl (cleanPush rooted) []).reverse

/-- Model of Go path.Clean (equally filepath.Clean on Unix hosts). -/
def goPathClean (s : String) : String :=
  if s = "" then "."
  else
    let rooted := isRooted s
    let segs := cleanSegs rooted (splitSlash s)
    if rooted then "/" ++ joinSlash segs
    else if segs = [] then "." else joinSlash segs

/-- Model of Go path.Join (equally filepath.Join on Unix hosts) on two
elements: empty elements are dropped and the slash-joined remainder is
cleaned; if all elements are empty the result is the empty string. -/
def goPathJoin2 (a b : String) : String :=
  if a = "" then
    if b = "" then "" else goPathClean b
  else if b = "" then goPathClean a
  else goPathClean (a ++ "/" ++ b)

/-- Model of Go io/fs.ValidPath: "." is valid, and otherwise every
slash-separated element must be non-empty and different from "." and "..".
(Lean strings are always valid UTF-8, so the UTF-8 validity test of the Go
original always passes in this model.) -/
def goValidPath (s : String) : Bool :=
  if s = "." then true
  else (splitSlash s).all fun e => ¬(e = "" ∨ e = "." ∨ e = "..")

/-- Model of Go path/filepath.Dir on Unix hosts: everything before the final
slash (keeping that slash), cleaned; "." when the path has no slash. -/
def goFilepathDir (p : String) : String :=
  let pre := p.data.reverse.dropWhile (fun c => ¬ c = '/')
  goPathClean (String.mk pre.reverse)

/-- Model of Go path/filepath.Abs on Unix hosts: an already-rooted path is
cleaned, a relative path is joined onto the process working directory cwd. -/
def goFilepathAbs (cwd p : String) : String :=
  if isRooted p then goPathClean p else goPathJoin2 cwd p

/-- Strip the common leading segments of two segment lists (the first-differing
position scan of Go path/filepath.Rel). -/
def stripCommon : List String → List String → List String × List String
  | a :: as0, b :: bs0 =>
      if a = b then stripCommon as0 bs0 else (a :: as0, b :: bs0)
  | as0, bs0 => (as0, bs0)

/-- Segments of an already-cleaned path, with the root slash removed and with
"" for the bare root, as used by the element scan in Go path/filepath.Rel. -/
def relSegsOf (cleaned : String) : List String :=
  if cleaned = "" then []
  else if cleaned = "/" then []
  else if isRooted cleaned then splitSlash (String.mk cleaned.data.tail)
  else splitSlash cleaned

/-- Model of Go path/filepath.Rel on Unix hosts, returning none where the Go
original returns an error.  Both inputs are cleaned; equal paths yield ".";
a rooted and a relative path cannot be related; otherwise the common leading
elements are stripped and the remaining base elements (which must not start
with "..") are replaced by ".." steps. -/
def goFilepathRel (base targ : String) : Option String :=
  let base0 := goPathClean base
  let targ0 := goPathClean targ
  if base0 = targ0 then some "."
  else
    let base1 := if base0 = "." then "" else base0
    if ¬ (isRooted base1 = isRooted targ0) then none
    else
      let (bs, ts) := stripCommon (relSegsOf base1) (relSegsOf targ0)
      match bs with
      | [] => some (joinSlash ts)
      | b :: rest =>
          if b = ".." then none
          else
            let ups := List.replicate (rest.length + 1) ".."
            some (joinSlash (ups ++ ts))

/-! ## internal/escapingfs (part containing TargetWithinRoot)

Faithful to the version of TargetWithinRoot that cleans both inputs, takes
the relative path from root to target and scans its separator-split
components for "..". -/

/-- Model of escapingfs.TargetWithinRoot: none models the error return from
filepath.Rel, some b the boolean verdict. -/
def TargetWithinRoot (root target : String) : Option Bool :=
  if target.length = 0 ∨ root.length = 0 then some false
  else
    let cleanRoot := goPathClean root
    let cleanTarget := goPathClean target
    match goFilepathRel cleanRoot cleanTarget with
    | none => none
    | some rel =>
        let rel0 := goPathClean rel
        let components := splitSlash rel0
        if components.any (fun c => c = "..") then some false else some true

/-! ## internal/copyUtil (limitCopy.go)

CopyWithLimit copies from src to dst in chunks of chunkSize bytes, failing
once maxChunks full chunks have been copied and more input remains.  We model
the reader by its remaining byte count; io.CopyN copies min(chunkSize, n)
bytes and reports EOF exactly when fewer than chunkSize bytes were copied.
The loop counter totalChunks is represented by the remaining chunk budget
(maxChunks - totalChunks), which makes the recursion structural. -/

def chunkSize : Nat := 4 * 1024 * 1024

def maxChunks : Nat := 100

/-- One run of the CopyWithLimit loop: budget is maxChunks minus the chunks
copied so far, remaining the bytes left in src, copied the bytes written so
far.  Returns the total bytes written on success and none on the
copy-limit-exceeded error. -/
def copyWithLimitLoop : Nat → Nat → Nat → Option Nat
  | 0, _, _ => none
  | b + 1, remaining, copied =>
      if remaining < chunkSize then some (copied + remaining)
      else copyWithLimitLoop b (remaining - chunkSize) (copied + chunkSize)

/-- Model of copyUtil.CopyWithLimit on a source holding size bytes: some n
means success after writing n bytes, none the "copy limit exceeded" error. -/
def CopyWithLimit (size : Nat) : Option Nat :=
  copyWithLimitLoop maxChunks size 0

/-! ## slug.go: the Unpack per-entry destination check

Unpack strips one leading slash from the header name, joins the result onto
the destination directory, cleans it, and accepts the entry iff the cleaned
target has the destination directory as a string prefix
(strings.HasPrefix(target, dst)). -/

/-- Destination path computed by Unpack for a tar header name: the leading
slash (if any) is dropped and the remainder joined onto dst. -/
def slugUnpackDestPath (dst name : String) : String :=
  let p := if strHasPre name "/" then String.mk name.data.tail else name
  goPathJoin2 dst p

/-- The path-traversal check of Unpack: the entry is accepted (not rejected
with the IllegalSlugError) iff the cleaned destination path has dst as a
string prefix. -/
def slugUnpackPathAllowed (dst name : String) : Bool :=
  strHasPre (goPathClean (slugUnpackDestPath dst name)) dst

/-! ## slug.go: symlink resolution and the symlink safety check

resolveLink reads the raw link target and makes it absolute by joining it
with the link's directory (and with the walk root if still relative); we
model the non-chained case (the target is not itself a symlink).  Pack emits
a tar symlink header whose Linkname is the resolved absolute target
(filepath.ToSlash is the identity on Unix hosts), and Unpack recreates a
symlink verbatim from Linkname after re-running checkSymlink against the
destination directory. -/

/-- Model of the absTarget computation in Packer.resolveLink for a link at
the given path below root whose raw target is target. -/
def resolveLinkAbsTarget (root path target : String) : String :=
  let a1 := if isRooted target then target else goPathJoin2 (goFilepathDir path) target
  if isRooted a1 then a1 else goPathJoin2 root a1

/-- The Linkname written by packWalkFn for an acceptable symlink: the
resolved absolute target. -/
def packSymlinkLinkname (root path target : String) : String :=
  resolveLinkAbsTarget root path target

/-- The target of the symlink created by Unpack for a symlink entry:
os.Symlink(header.Linkname, path) uses the Linkname verbatim. -/
def unpackSymlinkTarget (linkname : String) : String :=
  linkname

/-- Model of Packer.checkSymlink: true iff the target of a symlink at path
below root is acceptable, i.e. the absolute target has the absolute root as a
string prefix, or it equals an allowed target, or it extends an allowed
target treated as a directory.  cwd stands for the process working directory
consulted by filepath.Abs. -/
def checkSymlink (cwd : String) (allowTargets : List String) (root path target : String) : Bool :=
  let absRoot := goFilepathAbs cwd root
  let absPath := if isRooted path then path else goPathJoin2 absRoot path
  let absTarget :=
    if isRooted target then goPathClean target
    else goPathJoin2 (goFilepathDir absPath) target
  if strHasPre absTarget absRoot then true
  else
    allowTargets.any fun p0 =>
      let p1 := if isRooted p0 then p0 else goPathJoin2 absRoot p0
      if absTarget = p1 then true
      else strHasPre absTarget (if strHasSuf p1 "/" then p1 else p1 ++ "/")

/-! ## crypto/sha256 and encoding/hex

OpenDir (sourcebundle) computes the stored manifest checksum as
hex.EncodeToString(hash.Sum(manifestSrc)) on a freshly created sha256 hash.
In Go, Hash.Sum(b) appends the digest of the data written so far - here none -
to b, so the stored "checksum" is the manifest bytes followed by the SHA-256
digest of the empty message, all hex-encoded.  To state the claim we implement
SHA-256 itself (FIPS 180-4) over byte lists, with 32-bit words as naturals
reduced modulo 2^32. -/

/-- Reduce a natural modulo 2^32 (32-bit truncation). -/
def m32 (n : Nat) : Nat := n % 4294967296

/-- 32-bit addition. -/
def add32 (a b : Nat) : Nat := m32 (a + b)

/-- Rotate a 32-bit word right by n bits. -/
def rotr32 (n x : Nat) : Nat :=
  m32 (Nat.lor (Nat.shiftRight x n) (Nat.shiftLeft x (32 - n)))

/-- SHA-256 big sigma 0. -/
def bsig0 (x : Nat) : Nat :=
  Nat.xor (rotr32 2 x) (Nat.xor (rotr32 13 x) (rotr32 22 x))

/-- SHA-256 big sigma 1. -/
def bsig1 (x : Nat) : Nat :=
  Nat.xor (rotr32 6 x) (Nat.xor (rotr32 11 x) (rotr32 25 x))

/-- SHA-256 small sigma 0. -/
def ssig0 (x : Nat) : Nat :=
  Nat.xor (rotr32 7 x) (Nat.xor (rotr32 18 x) (Nat.shiftRight x 3))

/-- SHA-256 small sigma 1. -/
def ssig1 (x : Nat) : Nat :=
  Nat.xor (rotr32 17 x) (Nat.xor (rotr32 19 x) (Nat.shiftRight x 10))

/-- SHA-256 choice function: (x AND y) XOR ((NOT x) AND z) on 32-bit words. -/
def chf (x y z : Nat) : Nat :=
  Nat.xor (Nat.land x y) (Nat.land (Nat.xor x 4294967295) z)

/-- SHA-256 majority function. -/
def majf (x y z : Nat) : Nat :=
  Nat.xor (Nat.land x y) (Nat.xor (Nat.land x z) (Nat.land y z))

/-- The SHA-256 working state of eight 32-bit words. -/
structure Sha256State where
  a : Nat
  b : Nat
  c : Nat
  d : Nat
  e : Nat
  f : Nat
  g : Nat
  h : Nat

/-- The SHA-256 initial hash value. -/
def sha256Init : Sha256State :=
  ⟨1779033703, 3144134277, 1013904242, 2773480762,
   1359893119, 2600822924, 528734635, 1541459225⟩

/-- The SHA-256 round constants. -/
def sha256K : List Nat :=
  [1116352408, 1899447441, 3049323471, 3921009573, 961987163,
   1508970993, 2453635748, 2870763221, 3624381080, 310598401,
   607225278, 1426881987, 1925078388, 2162078206, 2614888103,
   3248222580, 3835390401, 4022224774, 264347078, 604807628,
   770255983, 1249150122, 1555081692, 1996064986, 2554220882,
   2821834349, 2952996808, 3210313671, 3336571891, 3584528711,
   113926993, 338241895, 666307205, 773529912, 1294757372,
   1396182291, 1695183700, 1986661051, 2177026350, 2456956037,
   2730485921, 2820302411, 3259730800, 3345764771, 3516065817,
   3600352804, 4094571909, 275423344, 430227734, 506948616,
   659060556, 883997877, 958139571, 1322822218, 1537002063,
   1747873779, 1955562222, 2024104815, 2227730452, 2361852424,
   2428436474, 2756734187, 3204031479, 3329325298]

/-- Combine four bytes into a big-endian 32-bit word. -/
def wordOfBytes (b0 b1 b2 b3 : Nat) : Nat :=
  m32 (b0 * 16777216 + b1 * 65536 + b2 * 256 + b3)

/-- The four big-endian bytes of a 32-bit word. -/
def wordBytes (w : Nat) : List Nat :=
  [w / 16777216 % 256, w / 65536 % 256, w / 256 % 256, w % 256]

/-- The eight big-endian bytes of a 64-bit length field. -/
def be64 (n : Nat) : List Nat :=
  [n / 72057594037927936 % 256, n / 281474976710656 % 256,
   n / 1099511627776 % 256, n / 4294967296 % 256,
   n / 16777216 % 256, n / 65536 % 256, n / 256 % 256, n % 256]

/-- Group a byte list into big-endian 32-bit words. -/
def words16 : List Nat → List Nat
  | b0 :: b1 :: b2 :: b3 :: rest => wordOfBytes b0 b1 b2 b3 :: words16 rest
  | _ => []

/-- Extend the message schedule by one word. -/
def scheduleStep (ws : List Nat) : List Nat :=
  ws ++ [add32 (add32 (ws.getD (ws.length - 16) 0) (ssig0 (ws.getD (ws.length - 15) 0)))
            (add32 (ws.getD (ws.length - 7) 0) (ssig1 (ws.getD (ws.length - 2) 0)))]

/-- Extend the message schedule n times. -/
def buildSchedule : List Nat → Nat → List Nat
  | ws, 0 => ws
  | ws, n + 1 => buildSchedule (scheduleStep ws) n

/-- One SHA-256 compression round for round constant k and schedule word w. -/
def sha256Round (st : Sha256State) (k w : Nat) : Sha256State :=
  let t1 := add32 st.h (add32 (bsig1 st.e) (add32 (chf st.e st.f st.g) (add32 k w)))
  let t2 := add32 (bsig0 st.a) (majf st.a st.b st.c)
  ⟨add32 t1 t2, st.a, st.b, st.c, add32 st.d t1, st.e, st.f, st.g⟩

/-- Compress one 64-byte block into the running state. -/
def sha256Compress (st : Sha256State) (block : List Nat) : Sha256State :=
  let ws := buildSchedule (words16 block) 48
  let st2 := (sha256K.zip ws).foldl (fun s kw => sha256Round s kw.1 kw.2) st
  ⟨add32 st.a st2.a, add32 st.b st2.b, add32 st.c st2.c, add32 st.d st2.d,
   add32 st.e st2.e, add32 st.f st2.f, add32 st.g st2.g, add32 st.h st2.h⟩

/-- Split a byte list into blocks of 64. -/
def chunksOf64 (l : List Nat) : List (List Nat) :=
  if h : l = [] then []
  else
    (l.take 64) :: chunksOf64 (l.drop 64)
  termination_by l.length
  decreasing_by
    have hpos : 0 < l.length := List.length_pos.mpr h
    simp only [List.length_drop]
    omega

/-- SHA-256 padding: a 0x80 byte, zero fill to 56 mod 64, then the bit length
as a 64-bit big-endian integer. -/
def sha256Pad (msg : List Nat) : List Nat :=
  msg ++ 128 :: (List.replicate ((119 - msg.length % 64) % 64) 0 ++ be64 (msg.length * 8))

/-- The 32 big-endian digest bytes of a final SHA-256 state. -/
def sha256Digest (st : Sha256State) : List Nat :=
  wordBytes st.a ++ wordBytes st.b ++ wordBytes st.c ++ wordBytes st.d ++
    wordBytes st.e ++ wordBytes st.f ++ wordBytes st.g ++ wordBytes st.h

/-- SHA-256 of a byte list (FIPS 180-4). -/
def sha256Bytes (msg : List Nat) : List Nat :=
  sha256Digest ((chunksOf64 (sha256Pad msg)).foldl sha256Compress sha256Init)

/-- The sixteen lowercase hexadecimal digits. -/
def hexChars : List Char :=
  "0123456789abcdef".data

/-- Model of Go encoding/hex.EncodeToString over a byte list. -/
def hexEncode (bs : List Nat) : String :=
  String.mk (bs.foldr (fun b acc => hexChars.getD (b / 16) '0' :: hexChars.getD (b % 16) '0' :: acc) [])

/-! ## sourcebundle OpenDir checksum and Bundle.ChecksumV1

OpenDir stores hex.EncodeToString(hash.Sum(manifestSrc)) for a fresh
sha256.New() hash; Hash.Sum(b) in Go appends the digest of the (empty)
written data to its argument, so the stored value hex-encodes the manifest
bytes followed by the SHA-256 digest of the empty message.  ChecksumV1
prefixes the stored value with "h1:". -/

/-- Model of hash.Sum(b) on a fresh sha256.New() hash: the digest of the
empty message is appended to b. -/
def goHashSumAppend (b : List Nat) : List Nat :=
  b ++ sha256Bytes []

/-- The manifest checksum stored by OpenDir for the given manifest bytes. -/
def openDirManifestChecksum (manifestSrc : List Nat) : String :=
  hexEncode (goHashSumAppend manifestSrc)

/-- Model of Bundle.ChecksumV1: the stored manifest checksum with an "h1:"
prefix. -/
def bundleChecksumV1 (manifestSrc : List Nat) : String :=
  "h1:" ++ openDirManifestChecksum manifestSrc

/-! ## sourceaddrs: local sources

LocalSource stores a slash-separated relative path beginning with "./" or
"../".  ParseLocalSource rejects paths holding a colon or backslash, requires
the local-looking prefix, and requires the input to equal its own
canonicalisation (path.Clean with the mandatory prefix re-attached). -/

structure LocalSource where
  relPath : String
deriving DecidableEq, Repr

/-- Model of strings.Index: the first position where sub occurs in the char
list, none when absent. -/
def idxOfSub : List Char → List Char → Option Nat
  | l, sub =>
    if List.isPrefixOf sub l then some 0
    else
      match l with
      | [] => none
      | _ :: rest => (idxOfSub rest sub).map (· + 1)

/-- Model of strings.Index over strings. -/
def strIndex (s sub : String) : Option Nat :=
  idxOfSub s.data sub.data

/-- Model of strings.Contains over strings. -/
def strContains (s sub : String) : Bool :=
  (strIndex s sub).isSome

/-- The first n characters of a string (byte slicing s[:n] of the Go
original, which coincides for the ASCII inputs the code handles). -/
def strTake (s : String) (n : Nat) : String :=
  String.mk (s.data.take n)

/-- All but the first n characters of a string (byte slicing s[n:]). -/
def strDrop (s : String) (n : Nat) : String :=
  String.mk (s.data.drop n)

/-- Model of sourceaddrs.looksLikeLocalSource: the string starts with "./"
or "../". -/
def looksLikeLocalSource (given : String) : Bool :=
  strHasPre given "./" || strHasPre given "../"

/-- Does the string contain a colon or backslash (strings.ContainsAny with
":\\")? -/
def containsColonOrBackslash (s : String) : Bool :=
  s.data.any fun c => c = ':' ∨ c = '\\'

/-- The canonical form computed inside ParseLocalSource: path.Clean, the
bare "." and ".." rewritten to "./" and "../", and a "./" prefix attached
when the result does not yet look like a local source. -/
def canonicalLocalPath (given : String) : String :=
  let c0 := goPathClean given
  let c1 := if c0 = ".." then "../" else if c0 = "." then "./" else c0
  if looksLikeLocalSource c1 then c1 else "./" ++ c1

/-- Model of sourceaddrs.ParseLocalSource. -/
def ParseLocalSource (given : String) : Except String LocalSource :=
  if containsColonOrBackslash given then
    .error "must be a relative path using forward-slash separators between segments, like in a relative URL"
  else if ¬ (looksLikeLocalSource given || given = "." || given = "..") then
    .error "must start with either ./ or ../ to indicate a local path"
  else if canonicalLocalPath given = given then .ok ⟨canonicalLocalPath given⟩
  else .error ("relative path must be written in canonical form \"" ++ canonicalLocalPath given ++ "\"")

/-- Model of LocalSource.String: the stored relative path. -/
def localSourceString (s : LocalSource) : String :=
  s.relPath

/-! ## sourceaddrs: sub-paths -/

/-- Model of sourceaddrs.normalizeSubpath: the empty string denotes the
package root; otherwise the path must satisfy fs.ValidPath and not clean to
".", and is returned cleaned. -/
def normalizeSubpath (given : String) : Except String String :=
  if given = "" then .ok ""
  else if ¬ goValidPath given then
    .error "must be slash-separated relative path without any .. or . segments"
  else if goPathClean given = "." then
    .error "must be slash-separated relative path without any .. or . segments"
  else .ok (goPathClean given)

/-- Model of sourceaddrs.splitSubPath: find the "//" separator outside the
scheme and before any query string, and move a query found inside the
sub-path back onto the package portion. -/
def splitSubPath (src : String) : String × String :=
  let stop := (strIndex src "?").getD src.length
  let offset :=
    match strIndex (strTake src stop) "://" with
    | some i => i + 3
    | none => 0
  match strIndex (strTake (strDrop src offset) (stop - offset)) "//" with
  | none => (src, "")
  | some i =>
      let idx := i + offset
      let subdir := strDrop src (idx + 2)
      let pkg := strTake src idx
      match strIndex subdir "?" with
      | some j => (pkg ++ strDrop subdir j, strTake subdir j)
      | none => (pkg, subdir)

/-- Model of sourceaddrs.joinSubPath: path-join the sub-path with the
relative path; "." denotes the package root, and a join that fails
fs.ValidPath has escaped the package upward. -/
def joinSubPath (subPath rel : String) : Except String String :=
  if goPathJoin2 subPath rel = "." then .ok ""
  else if ¬ goValidPath (goPathJoin2 subPath rel) then
    .error ("relative path " ++ rel ++ " traverses up too many levels from source path " ++ subPath)
  else .ok (goPathJoin2 subPath rel)

/-! ## sourceaddrs: remote packages and sources

The URL inside a RemotePackage is modelled by its scheme and the remainder
after "://" (authority and path); the modelled addresses carry no query
string, which covers every address appearing in the claims.  Stringification
omits the "type::" prefix when the source type equals the URL scheme, and a
non-empty sub-path is appended to the URL path after "//" as in
RemotePackage.subPathString. -/

structure URLModel where
  scheme : String
  rest : String
deriving DecidableEq, Repr

/-- Stringification of a modelled URL. -/
def urlString (u : URLModel) : String :=
  u.scheme ++ "://" ++ u.rest

structure RemotePackage where
  sourceType : String
  url : URLModel
deriving DecidableEq, Repr

/-- Model of RemotePackage.String. -/
def remotePackageString (p : RemotePackage) : String :=
  if p.url.scheme = p.sourceType then urlString p.url
  else p.sourceType ++ "::" ++ urlString p.url

structure RemoteSource where
  pkg : RemotePackage
  subPath : String
deriving DecidableEq, Repr

/-- Model of RemoteSource.String via RemotePackage.subPathString. -/
def remoteSourceString (s : RemoteSource) : String :=
  if s.subPath = "" then remotePackageString s.pkg
  else
    let subURL : URLModel := ⟨s.pkg.url.scheme, s.pkg.url.rest ++ "//" ++ s.subPath⟩
    if subURL.scheme = s.pkg.sourceType then urlString subURL
    else s.pkg.sourceType ++ "::" ++ urlString subURL

/-! ## sourceaddrs: registry sources

The package portion of a registry source is parsed by the external
terraform-registry-address library. -/

structure ModulePackage where
  host : String
  nspace : String
  name : String
  targetSystem : String
deriving DecidableEq, Repr

/-- Stringification of a registry module package. -/
def modulePackageString (p : ModulePackage) : String :=
  p.host ++ "/" ++ p.nspace ++ "/" ++ p.name ++ "/" ++ p.targetSystem

structure RegistrySource where
  pkg : ModulePackage
  subPath : String
deriving DecidableEq, Repr

/-- Model of RegistrySource.String. -/
def registrySourceString (s : RegistrySource) : String :=
  if s.subPath = "" then modulePackageString s.pkg
  else modulePackageString s.pkg ++ "//" ++ s.subPath

/-- Modelled from the spec: the default module registry host of the
ecosystem, to which a three-component registry address is attributed.  The
constant lives in the external terraform-registry-address library, which is
not part of this repository. -/
def defaultModuleRegistryHost : String :=
  "registry.terraform.io"

/-- Is the string acceptable as one name component (namespace, name or
target system) of a module registry address?  Modelled from the spec: a
non-empty run of letters and digits, possibly with interior hyphens or
underscores. -/
def validRegistryName (s : String) : Bool :=
  match s.data with
  | [] => false
  | c :: rest =>
      c.isAlphanum &&
        (c :: rest).all (fun x => x.isAlphanum || x = '-' || x = '_') &&
        ((c :: rest).getLastD c).isAlphanum

/-- Is the string acceptable as the registry host component?  Modelled from
the spec: a hostname-shaped word of letters, digits, dots, hyphens and an
optional port. -/
def validRegistryHost (s : String) : Bool :=
  ¬ s.data.isEmpty &&
    s.data.all fun c => c.isAlphanum || c = '.' || c = '-' || c = ':'

/-- Modelled from the spec: ParseModuleSource of the external
terraform-registry-address library.  The sub-path is split off first; the
remainder must consist of three components (namespace, name, target system,
attributed to the default registry host) or four components (an explicit
host first); the hosts github.com and bitbucket.org are reserved for
version-control shorthand addresses and rejected. -/
def parseModuleSourceModel (raw : String) : Except String ModulePackage :=
  match splitSlash (splitSubPath raw).1 with
  | [a, b, c] =>
      if validRegistryName a && validRegistryName b && validRegistryName c then
        .ok ⟨defaultModuleRegistryHost, a, b, c⟩
      else .error "invalid module registry address component"
  | [h0, a, b, c] =>
      if ¬ validRegistryHost h0 then .error "invalid module registry host"
      else if h0 = "github.com" ∨ h0 = "bitbucket.org" then
        .error "can not use version control host as a module registry host"
      else if validRegistryName a && validRegistryName b && validRegistryName c then
        .ok ⟨h0, a, b, c⟩
      else .error "invalid module registry address component"
  | _ => .error "a module registry source address must have either three or four slash-separated components"

/-- Model of sourceaddrs.looksLikeRegistrySource: the string parses as a
module registry source. -/
def looksLikeRegistrySource (given : String) : Bool :=
  match parseModuleSourceModel given with
  | .ok _ => true
  | .error _ => false

/-- Model of sourceaddrs.ParseRegistrySource: split the sub-path off,
normalize it, and parse the package portion with the registry-address
grammar. -/
def ParseRegistrySource (given : String) : Except String RegistrySource :=
  match normalizeSubpath (splitSubPath given).2 with
  | .error e => .error ("invalid sub-path: " ++ e)
  | .ok subPath =>
      match parseModuleSourceModel (splitSubPath given).1 with
      | .error e => .error e
      | .ok pkg => .ok ⟨pkg, subPath⟩

/-! ## sourceaddrs: remote source shorthands and the top-level parser

The two shorthand expanders from source_remote.go are modelled exactly; the
full remote-source parser (URL parsing and per-type validation) is out of
scope for the claims, so the top-level dispatch represents entry into its
default branch by recording the string that ParseRemoteSource would
receive. -/

/-- Model of the github.com shorthand expander: github.com/ORG/REPO[/SUB...]
becomes git::https://github.com/ORG/REPO.git//SUB..., with ".git" appended
only when the third component does not already end in "git". -/
def githubShorthand (given : String) : Except String (Option String) :=
  if ¬ strHasPre given "github.com/" then .ok none
  else
    let parts := splitSlash given
    if parts.length < 3 then
      .error "GitHub.com shorthand addresses must start with github.com/organization/repository"
    else
      let u0 := "https://" ++ joinSlash (parts.take 3)
      let u1 := if strHasSuf u0 "git" then u0 else u0 ++ ".git"
      let u2 := if parts.length > 3 then u1 ++ "//" ++ joinSlash (parts.drop 3) else u1
      .ok (some ("git::" ++ u2))

/-- Model of the gitlab.com shorthand expander, identical in shape to the
github.com one. -/
def gitlabShorthand (given : String) : Except String (Option String) :=
  if ¬ strHasPre given "gitlab.com/" then .ok none
  else
    let parts := splitSlash given
    if parts.length < 3 then
      .error "GitLab.com shorthand addresses must start with gitlab.com/organization/repository"
    else
      let u0 := "https://" ++ joinSlash (parts.take 3)
      let u1 := if strHasSuf u0 "git" then u0 else u0 ++ ".git"
      let u2 := if parts.length > 3 then u1 ++ "//" ++ joinSlash (parts.drop 3) else u1
      .ok (some ("git::" ++ u2))

/-- Is the character one of the ASCII whitespace characters trimmed by
strings.TrimSpace?  The modelled addresses contain no exotic Unicode
spaces. -/
def isSpaceChar (c : Char) : Bool :=
  c = ' ' || c = '\t' || c = '\n' || c = '\r'

/-- Does strings.TrimSpace leave the string unchanged (no leading or
trailing whitespace)? -/
def trimSpaceUnchanged (s : String) : Bool :=
  (match s.data.head? with
   | some c => ¬ isSpaceChar c
   | none => true) &&
  (match s.data.getLast? with
   | some c => ¬ isSpaceChar c
   | none => true)

/-- Result of the top-level ParseSource dispatch.  The remoteParse
constructor records that the default branch hands the given string to
ParseRemoteSource, whose internals are outside the scope of the claims. -/
inductive ParseSourceResult where
  | err (msg : String)
  | localSrc (s : LocalSource)
  | registrySrc (s : RegistrySource)
  | remoteParse (given : String)
deriving DecidableEq, Repr

/-- Model of sourceaddrs.ParseSource: reject surrounding whitespace and the
empty string, then dispatch on the syntactic class of the address: local
first, module registry second, remote otherwise. -/
def parseSource (given : String) : ParseSourceResult :=
  if ¬ trimSpaceUnchanged given then
    .err "source address must not have leading or trailing spaces"
  else if given = "" then .err "a valid source address is required"
  else if looksLikeLocalSource given || given = "." || given = ".." then
    match ParseLocalSource given with
    | .ok l => .localSrc l
    | .error e => .err ("invalid local source address: " ++ e)
  else if looksLikeRegistrySource given then
    match ParseRegistrySource given with
    | .ok r => .registrySrc r
    | .error e => .err ("invalid module registry source address: " ++ e)
  else .remoteParse given

/-! ## sourceaddrs: relative resolution -/

/-- The closed sum of source address types. -/
inductive Source where
  | localSrc (s : LocalSource)
  | registrySrc (s : RegistrySource)
  | remoteSrc (s : RemoteSource)
deriving DecidableEq, Repr

/-- Model of Source.String across the three variants. -/
def sourceString : Source → String
  | .localSrc s => localSourceString s
  | .registrySrc s => registrySourceString s
  | .remoteSrc s => remoteSourceString s

/-- Model of sourceaddrs.ResolveRelativeSource: an absolute b is returned
unchanged; a local b is joined onto a local base with path.Join (re-attaching
the "./" prefix when needed), and onto a registry or remote base with
joinSubPath, wrapping traversal errors with the base address. -/
def resolveRelativeSource (a b : Source) : Except String Source :=
  match b with
  | .registrySrc _ => .ok b
  | .remoteSrc _ => .ok b
  | .localSrc bl =>
      match a with
      | .localSrc al =>
          let nw := goPathJoin2 al.relPath bl.relPath
          .ok (.localSrc ⟨if looksLikeLocalSource nw then nw else "./" ++ nw⟩)
      | .registrySrc ar =>
          match joinSubPath ar.subPath bl.relPath with
          | .error e => .error ("invalid traversal from " ++ sourceString a ++ ": " ++ e)
          | .ok newSub => .ok (.registrySrc ⟨ar.pkg, newSub⟩)
      | .remoteSrc ar =>
          match joinSubPath ar.subPath bl.relPath with
          | .error e => .error ("invalid traversal from " ++ sourceString a ++ ": " ++ e)
          | .ok newSub => .ok (.remoteSrc ⟨ar.pkg, newSub⟩)

/-- A path segment is degenerate when the cleaner must not emit it as a
normal name: the empty segment, "." and "..". -/
def degenerateSeg (x : String) : Prop :=
  x = "" ∨ x = "." ∨ x = ".."

instance (x : String) : Decidable (degenerateSeg x) := by
  unfold degenerateSeg
  infer_instance

/-! ## sourcebundle: Bundle.SourceForLocalPath

The bundle keeps a map from remote packages to local directory names; the
inverse lookup walks that map (modelled as an association list in iteration
order), keeps a candidate whose directory matches, and replaces it whenever a
later candidate's stringified address is not longer than the current one. -/

structure BundleModel where
  rootDir : String
  remotePackageDirs : List (RemotePackage × String)
deriving DecidableEq

/-- One step of the candidate-selection loop of SourceForLocalPath: a
matching candidate replaces the current one unless its address string is
strictly longer. -/
def pickStep (localDir : String) (acc : Option RemotePackage) (e : RemotePackage × String) :
    Option RemotePackage :=
  if ¬ e.2 = localDir then acc
  else
    match acc with
    | none => some e.1
    | some cur =>
        if (remotePackageString e.1).length > (remotePackageString cur).length then acc
        else some e.1

/-- The candidate-selection loop of SourceForLocalPath over the package map
in iteration order. -/
def pickPackageForDir (entries : List (RemotePackage × String)) (localDir : String) :
    Option RemotePackage :=
  entries.foldl (pickStep localDir) none

/-- Model of strings.Cut on the first slash: the part before it and the part
after it (the whole string and "" when there is no slash). -/
def strCutSlash (s : String) : String × String :=
  match strIndex s "/" with
  | some i => (strTake s i, strDrop s (i + 1))
  | none => (s, "")

/-- Model of Bundle.SourceForLocalPath: make the path absolute against cwd,
reinterpret it relative to the bundle root, require a valid downward path,
split off the first segment as the local directory name, select the matching
package with the selection loop, and attach the remaining sub-path.  The
sub-path normalization models RemotePackage.SourceAddr, whose panic branch
is represented by an error and is unreachable for the valid paths reaching
it. -/
def sourceForLocalPath (cwd : String) (b : BundleModel) (p : String) :
    Except String RemoteSource :=
  match goFilepathRel b.rootDir (goFilepathAbs cwd p) with
  | none => .error "path does not belong to the source bundle"
  | some relPath =>
      if ¬ goValidPath (goPathClean relPath) ∨ goPathClean relPath = "." then
        .error "path does not belong to the source bundle"
      else
        match pickPackageForDir b.remotePackageDirs (strCutSlash (goPathClean relPath)).1 with
        | none => .error "path does not belong to the source bundle"
        | some pkgAddr =>
            match normalizeSubpath (strCutSlash (goPathClean relPath)).2 with
            | .error e => .error e
            | .ok sp => .ok ⟨pkgAddr, sp⟩

/-! ## sourcebundle: the builder state machine

The builder tracks a target directory, two pending-artifact queues consumed
in LIFO order, the set of analyzed artifacts, the per-package local
directories and metadata, and the registry caches.  The external
collaborators (registry client, package fetcher, dependency finder) are
modelled as pure functions supplied up front; versions are modelled as
naturals, dependency finders by identifiers, and the package content hash
and fetch side effects by the directory name the fetch produces.  Closing
or any error-producing add clears targetDir, which is the poisoned state
making every later add panic. -/

structure RemoteArtifact where
  sourceAddr : RemoteSource
  depFinder : Nat
deriving DecidableEq, Repr

structure RegistryArtifact where
  sourceAddr : RegistrySource
  allowedVersions : List Nat
  depFinder : Nat
deriving DecidableEq, Repr

inductive DiagSeverity where
  | diagError
  | diagWarning
deriving DecidableEq, Repr

structure Diag where
  severity : DiagSeverity
  summary : String
  detail : String
deriving DecidableEq, Repr

/-- Model of Diagnostics.HasErrors. -/
def diagsHasErrors (d : List Diag) : Bool :=
  d.any fun x => x.severity = .diagError

structure BuilderState where
  targetDir : String
  pendingRemote : List RemoteArtifact
  pendingRegistry : List RegistryArtifact
  analyzed : List RemoteArtifact
  remotePackageDirs : List (RemotePackage × String)
  remotePackageMeta : List (RemotePackage × String)
  resolvedRegistry : List ((ModulePackage × Nat) × RemoteSource)
  registryPackageVersions : List (ModulePackage × List Nat)
deriving DecidableEq

/-- A dependency reported by a dependency finder through the Dependencies
sink. -/
inductive DepCall where
  | remoteDep (src : RemoteSource) (finder : Nat)
  | registryDep (src : RegistrySource) (allowed : List Nat) (finder : Nat)
deriving DecidableEq, Repr

/-- The external collaborators of the builder, modelled as pure functions:
the registry client's two calls, the package fetcher (returning the local
directory name derived from the content hash together with an optional git
commit id, "" for none), and the dependency finder dispatch. -/
structure Collaborators where
  registryVersions : ModulePackage → Except String (List Nat)
  registrySourceAddr : ModulePackage → Nat → Except String RemoteSource
  fetchPackage : RemotePackage → Except String (String × String)
  findDeps : RemoteSource → Nat → List DepCall × List Diag

/-- Model of RegistrySource.FinalSourceAddr: append the registry source's
sub-path beneath the resolved remote source's sub-path. -/
def registryFinalSourceAddr (s : RegistrySource) (real : RemoteSource) : RemoteSource :=
  if s.subPath = "" then real
  else if real.subPath = "" then ⟨real.pkg, s.subPath⟩
  else ⟨real.pkg, goPathJoin2 real.subPath s.subPath⟩

/-- Model of Builder.findRegistryPackageSource: resolve the available
versions (with cache), select the newest allowed one, resolve its remote
source address (with cache), and combine sub-paths. -/
def findRegistryPackageSource (co : Collaborators) (b : BuilderState)
    (src : RegistrySource) (allowed : List Nat) :
    Except String RemoteSource × BuilderState :=
  match b.registryPackageVersions.lookup src.pkg with
  | some avail => findRegistryPackageSourceStep2 co b src allowed avail
  | none =>
      match co.registryVersions src.pkg with
      | .error e => (.error ("failed to query available versions: " ++ e), b)
      | .ok vs =>
          findRegistryPackageSourceStep2 co
            {b with registryPackageVersions :=
              b.registryPackageVersions ++ [(src.pkg, vs.mergeSort (· ≤ ·))]}
            src allowed (vs.mergeSort (· ≤ ·))
where
  findRegistryPackageSourceStep2 (co : Collaborators) (b : BuilderState)
      (src : RegistrySource) (allowed : List Nat) (avail : List Nat) :
      Except String RemoteSource × BuilderState :=
    match (avail.filter (fun v => allowed.contains v)).max? with
    | none => (.error "no available version matches the specified version constraint", b)
    | some sel =>
        match b.resolvedRegistry.lookup (src.pkg, sel) with
        | some real => (.ok (registryFinalSourceAddr src real), b)
        | none =>
            match co.registrySourceAddr src.pkg sel with
            | .error e => (.error ("failed to find real source address: " ++ e), b)
            | .ok real =>
                (.ok (registryFinalSourceAddr src real),
                 {b with resolvedRegistry := b.resolvedRegistry ++ [((src.pkg, sel), real)]})

/-- Model of Builder.ensureRemotePackage: reuse an already-fetched package,
or fetch it and record its directory and metadata. -/
def ensureRemotePackage (co : Collaborators) (b : BuilderState) (pkgAddr : RemotePackage) :
    Except String String × BuilderState :=
  match b.remotePackageDirs.lookup pkgAddr with
  | some dir => (.ok dir, b)
  | none =>
      match co.fetchPackage pkgAddr with
      | .error e => (.error ("failed to fetch package: " ++ e), b)
      | .ok dc =>
          (.ok dc.1,
           {b with
              remotePackageDirs := b.remotePackageDirs ++ [(pkgAddr, dc.1)],
              remotePackageMeta :=
                if dc.2 = "" then b.remotePackageMeta
                else b.remotePackageMeta ++ [(pkgAddr, dc.2)]})

/-- Apply the queue pushes requested by a dependency finder through the
Dependencies sink callbacks. -/
def applyDepCalls (calls : List DepCall) (b : BuilderState) : BuilderState :=
  calls.foldl
    (fun b c =>
      match c with
      | .remoteDep src fi => {b with pendingRemote := b.pendingRemote ++ [⟨src, fi⟩]}
      | .registryDep src allowed fi =>
          {b with pendingRegistry := b.pendingRegistry ++ [⟨src, allowed, fi⟩]})
    b

/-- The queue-depletion loop of Builder.resolvePending, with explicit fuel
for the fixed-point iteration: registry artifacts are consumed before remote
artifacts, both in LIFO order, and errors become error diagnostics while the
loop keeps draining. -/
def resolvePendingLoop (co : Collaborators) :
    Nat → BuilderState → List Diag → List Diag × BuilderState
  | 0, b, diags => (diags, b)
  | fuel + 1, b, diags =>
      match b.pendingRegistry.getLast? with
      | some next =>
          match findRegistryPackageSource co
              {b with pendingRegistry := b.pendingRegistry.dropLast}
              next.sourceAddr next.allowedVersions with
          | (.error e, b2) =>
              resolvePendingLoop co fuel b2
                (diags ++ [⟨.diagError, "Cannot resolve module registry package", e⟩])
          | (.ok real, b2) =>
              resolvePendingLoop co fuel
                {b2 with pendingRemote := b2.pendingRemote ++ [⟨real, next.depFinder⟩]}
                diags
      | none =>
          match b.pendingRemote.getLast? with
          | some next =>
              match ensureRemotePackage co
                  {b with pendingRemote := b.pendingRemote.dropLast}
                  next.sourceAddr.pkg with
              | (.error e, b2) =>
                  resolvePendingLoop co fuel b2
                    (diags ++ [⟨.diagError, "Cannot install source package", e⟩])
              | (.ok _, b2) =>
                  if b2.analyzed.contains next then resolvePendingLoop co fuel b2 diags
                  else
                    resolvePendingLoop co fuel
                      (applyDepCalls (co.findDeps next.sourceAddr next.depFinder).1
                        {b2 with analyzed := b2.analyzed ++ [next]})
                      (diags ++ (co.findDeps next.sourceAddr next.depFinder).2)
          | none => (diags, b)

/-- Model of Builder.resolvePending: run the depletion loop and, per the
deferred poisoning step, clear targetDir whenever the collected diagnostics
contain an error. -/
def resolvePending (co : Collaborators) (fuel : Nat) (b : BuilderState) :
    List Diag × BuilderState :=
  ((resolvePendingLoop co fuel b []).1,
   if diagsHasErrors (resolvePendingLoop co fuel b []).1 then
     {(resolvePendingLoop co fuel b []).2 with targetDir := ""}
   else (resolvePendingLoop co fuel b []).2)

/-- Outcome of an add call: the panic on a poisoned builder, or completion
with the collected diagnostics. -/
inductive AddOutcome where
  | panicked
  | completed (diags : List Diag)
deriving DecidableEq

/-- Model of Builder.AddRemoteSource. -/
def addRemoteSource (co : Collaborators) (fuel : Nat) (b : BuilderState)
    (addr : RemoteSource) (fi : Nat) : AddOutcome × BuilderState :=
  if b.targetDir = "" then (.panicked, b)
  else if b.analyzed.contains ⟨addr, fi⟩ then (.completed [], b)
  else
    (.completed
        (resolvePending co fuel
          {b with pendingRemote := b.pendingRemote ++ [⟨addr, fi⟩]}).1,
     (resolvePending co fuel
        {b with pendingRemote := b.pendingRemote ++ [⟨addr, fi⟩]}).2)

/-- Model of Builder.AddRegistrySource. -/
def addRegistrySource (co : Collaborators) (fuel : Nat) (b : BuilderState)
    (addr : RegistrySource) (allowed : List Nat) (fi : Nat) : AddOutcome × BuilderState :=
  if b.targetDir = "" then (.panicked, b)
  else
    (.completed
        (resolvePending co fuel
          {b with pendingRegistry := b.pendingRegistry ++ [⟨addr, allowed, fi⟩]}).1,
     (resolvePending co fuel
        {b with pendingRegistry := b.pendingRegistry ++ [⟨addr, allowed, fi⟩]}).2)

/-- Model of Builder.AddFinalRegistrySource: an exact-version add through
AddRegistrySource (versions.Only of the selected version). -/
def addFinalRegistrySource (co : Collaborators) (fuel : Nat) (b : BuilderState)
    (addr : RegistrySource) (version : Nat) (fi : Nat) : AddOutcome × BuilderState :=
  addRegistrySource co fuel b addr [version] fi

/-- Outcome of Builder.Close: the panic on an already-closed builder, or
completion. -/
inductive CloseOutcome where
  | panicked
  | closed
deriving DecidableEq

/-- Model of the state transition of Builder.Close: a second close panics,
and a successful close clears targetDir so later adds panic. -/
def closeBuilder (b : BuilderState) : CloseOutcome × BuilderState :=
  if b.targetDir = "" then (.panicked, b) else (.closed, {b with targetDir := ""})

/-! ## sourcebundle: Builder.writeManifest

The manifest serialization collects the remote-package map into the packages
array and the resolved-registry map into the registry array (both in
iteration order), then sorts the packages array by its own source addresses.
The registry array is then sorted with sort.Slice whose comparator reads
root.Packages at the compared indices instead of root.RegistryMeta, exactly
as written in the source.  Go's sort.Slice performs a plain insertion sort
for the short slices arising here (pdqsort falls back to insertion sort
below 13 elements); we model that insertion sort with the comparator
evaluated on current positions, and model the out-of-range comparator access
(a runtime panic in Go) by none. -/

structure ManifestRemotePackage where
  sourceAddr : String
  localDir : String
  gitCommitID : String
deriving DecidableEq, Repr

structure ManifestRegistryMeta where
  sourceAddr : String
  versions : List (String × String)
deriving DecidableEq, Repr

structure ManifestRoot where
  formatVersion : Nat
  packages : List ManifestRemotePackage
  registryMeta : List ManifestRegistryMeta
deriving DecidableEq, Repr

/-- Lexicographic order on character lists by character code. -/
def charListLt : List Char → List Char → Bool
  | _, [] => false
  | [], _ :: _ => true
  | c :: cs, d :: ds =>
      if c.toNat < d.toNat then true
      else if d.toNat < c.toNat then false
      else charListLt cs ds

/-- Go's < on strings: byte-wise lexicographic order.  The address strings
compared here are ASCII, where character-code order equals byte order. -/
def strLt (a b : String) : Bool :=
  charListLt a.data b.data

/-- Insert one package into a list sorted by source address (the effect of
the value-based sort.Slice comparator on the packages array). -/
def insertPackageSorted (x : ManifestRemotePackage) :
    List ManifestRemotePackage → List ManifestRemotePackage
  | [] => [x]
  | y :: rest =>
      if strLt x.sourceAddr y.sourceAddr then x :: y :: rest
      else y :: insertPackageSorted x rest

/-- Sort the packages array by source address. -/
def sortPackages (l : List ManifestRemotePackage) : List ManifestRemotePackage :=
  l.foldl (fun acc x => insertPackageSorted x acc) []

/-- Swap two positions of a list (the swaps performed by sort.Slice). -/
def swapAt (l : List α) (i j : Nat) : List α :=
  match l.get? i, l.get? j with
  | some a, some b => (l.set i b).set j a
  | _, _ => l

/-- The inner loop of insertion sort with a position-based comparator:
while j > 0 and less j (j-1), swap downwards.  none propagates a comparator
failure (out-of-range access). -/
def posInsertionInner (less : Nat → Nat → Option Bool) : List α → Nat → Option (List α)
  | l, 0 => some l
  | l, j + 1 =>
      match less (j + 1) j with
      | none => none
      | some true => posInsertionInner less (swapAt l (j + 1) j) j
      | some false => some l

/-- The outer loop of insertion sort with a position-based comparator. -/
def posInsertionAux (less : Nat → Nat → Option Bool) :
    Nat → List α → Nat → Option (List α)
  | 0, l, _ => some l
  | steps + 1, l, i =>
      match posInsertionInner less l i with
      | none => none
      | some l2 => posInsertionAux less steps l2 (i + 1)

/-- Model of Go sort.Slice for the short slices arising in writeManifest:
insertion sort driven by the given comparator over current positions. -/
def goSortSliceByPosLess (less : Nat → Nat → Option Bool) (l : List α) :
    Option (List α) :=
  if l.length ≤ 1 then some l else posInsertionAux less (l.length - 1) l 1

/-- The comparator used for root.RegistryMeta as written in the source: it
reads root.Packages at the compared indices.  none models the index
out-of-range panic when the registry array is longer than the packages
array. -/
def registryMetaLess (packages : List ManifestRemotePackage) (i j : Nat) : Option Bool :=
  match packages.get? i, packages.get? j with
  | some a, some b => some (strLt a.sourceAddr b.sourceAddr)
  | _, _ => none

/-- Decimal digit characters for rendering version numbers. -/
def natDigitChar (n : Nat) : Char :=
  "0123456789".data.getD n '0'

/-- Decimal rendering of a natural with explicit fuel, so that it reduces in
the kernel. -/
def natDecimalAux : Nat → Nat → List Char
  | 0, _ => []
  | fuel + 1, n =>
      if n < 10 then [natDigitChar n]
      else natDecimalAux fuel (n / 10) ++ [natDigitChar (n % 10)]

/-- Decimal rendering of a natural number (the String form of the modelled
version numbers). -/
def natDecimal (n : Nat) : String :=
  String.mk (natDecimalAux (n + 1) n)

/-- Record one resolved registry version in the registry array, appending a
new entry on the first occurrence of its package (the registryObjs map of
the source). -/
def addRegistryVersion (acc : List ManifestRegistryMeta)
    (pkgStr verStr srcStr : String) : List ManifestRegistryMeta :=
  if acc.any fun m => m.sourceAddr = pkgStr then
    acc.map fun m =>
      if m.sourceAddr = pkgStr then ⟨m.sourceAddr, m.versions ++ [(verStr, srcStr)]⟩ else m
  else acc ++ [⟨pkgStr, [(verStr, srcStr)]⟩]

/-- Model of Builder.writeManifest: build and sort the packages array by its
own addresses, build the registry array, and sort the registry array with
the comparator that reads the packages array.  none models the runtime
panic of the out-of-range comparator. -/
def writeManifest (b : BuilderState) : Option ManifestRoot :=
  match goSortSliceByPosLess
      (registryMetaLess (sortPackages (b.remotePackageDirs.map fun e =>
        ⟨remotePackageString e.1, e.2,
         match b.remotePackageMeta.lookup e.1 with | some c => c | none => ""⟩)))
      (b.resolvedRegistry.foldl
        (fun acc e =>
          addRegistryVersion acc (modulePackageString e.1.1) (natDecimal e.1.2)
            (remoteSourceString e.2))
        []) with
  | none => none
  | some registryMeta =>
      some ⟨1,
        sortPackages (b.remotePackageDirs.map fun e =>
          ⟨remotePackageString e.1, e.2,
           match b.remotePackageMeta.lookup e.1 with | some c => c | none => ""⟩),
        registryMeta⟩

/-! ## Claim C3: the stored manifest checksum -/

/-- Hex encoding yields two characters per byte. -/
theorem hexEncode_length (bs : List Nat) : (hexEncode bs).length = 2 * bs.length := by
  induction bs with
  | nil => rfl
  | cons b rest ih =>
      simp only [hexEncode, List.foldr_cons] at *
      have hm : ∀ l : List Char, (String.mk l).length = l.length := fun _ => rfl
      rw [hm] at *
      simp only [List.length_cons]
      omega

/-- A SHA-256 digest always has 32 bytes. -/
theorem sha256Digest_length (st : Sha256State) : (sha256Digest st).length = 32 := by
  simp [sha256Digest, wordBytes]

/-- SHA-256 of any message has 32 bytes. -/
theorem sha256Bytes_length (msg : List Nat) : (sha256Bytes msg).length = 32 :=
  sha256Digest_length _

/-- Claim C3 (code bug): for every non-empty manifest, the checksum stored by
OpenDir is not the hex-encoded SHA-256 digest of the manifest bytes, and
ChecksumV1 correspondingly does not return "h1:" followed by that digest: the
code calls hash.Sum(manifestSrc) on a fresh hash, which appends the digest of
the empty message to the manifest bytes instead of hashing them, so the
stored string hex-encodes manifestSrc followed by SHA-256("") and is longer
than any hex-encoded digest. -/
theorem claim_C3_opendir_checksum_not_sha256 (src : List Nat) (hne : src ≠ []) :
    openDirManifestChecksum src ≠ hexEncode (sha256Bytes src) ∧
      bundleChecksumV1 src ≠ "h1:" ++ hexEncode (sha256Bytes src) := by
  have h1 : (openDirManifestChecksum src).length = 2 * (src.length + 32) := by
    have : (goHashSumAppend src).length = src.length + 32 := by
      simp [goHashSumAppend, sha256Bytes_length]
    rw [openDirManifestChecksum, hexEncode_length, this]
  have h2 : (hexEncode (sha256Bytes src)).length = 64 := by
    rw [hexEncode_length, sha256Bytes_length]
  have h3 : 0 < src.length := List.length_pos.mpr hne
  have hneq : openDirManifestChecksum src ≠ hexEncode (sha256Bytes src) := by
    intro heq
    rw [heq] at h1
    omega
  refine ⟨hneq, ?_⟩
  intro heq
  apply hneq
  have hdata := congrArg String.data heq
  simp only [String.data_append] at hdata
  have := List.append_cancel_left hdata
  exact congrArg String.mk this

/-- Claim C3 witness: the single-byte manifest 0x78 already exhibits the
divergence. -/
theorem claim_C3_witness :
    openDirManifestChecksum [120] ≠ hexEncode (sha256Bytes [120]) :=
  (claim_C3_opendir_checksum_not_sha256 [120] (by decide)).1

/-! ## Claim C10: CopyWithLimit size boundary -/

/-- Closed form of the CopyWithLimit loop: with a budget of b chunks the copy
succeeds exactly on sources strictly smaller than b full chunks. -/
theorem copyWithLimitLoop_eq (b : Nat) : ∀ r c,
    copyWithLimitLoop b r c = if r < chunkSize * b then some (c + r) else none := by
  induction b with
  | zero =>
      intro r c
      simp [copyWithLimitLoop]
  | succ b ih =>
      intro r c
      simp only [copyWithLimitLoop]
      rw [ih, Nat.mul_succ]
      by_cases h : r < chunkSize
      · rw [if_pos h, if_pos (by omega)]
      · rw [if_neg h]
        by_cases h2 : r - chunkSize < chunkSize * b
        · rw [if_pos h2, if_pos (by omega)]
          have h3 : c + chunkSize + (r - chunkSize) = c + r := by omega
          rw [h3]
        · rw [if_neg h2, if_neg (by omega)]

/-- Claim C10 (corrected): CopyWithLimit copies every byte and succeeds
exactly on sources strictly smaller than 100 chunks of 4 MiB (419430400
bytes); a source of exactly 100 chunks or more fails with the
copy-limit-exceeded error, because the chunk budget is checked again after
the hundredth full chunk has been copied. -/
theorem claim_C10_copyWithLimit_boundary (size : Nat) :
    CopyWithLimit size = if size < 419430400 then some size else none := by
  rw [CopyWithLimit, copyWithLimitLoop_eq]
  have h : chunkSize * maxChunks = 419430400 := rfl
  rw [h]
  simp

/-- Claim C10 counterexample: a source of exactly 419430400 bytes (100 full
chunks) does not exceed the cap claimed, yet CopyWithLimit fails on it with
the copy-limit-exceeded error instead of succeeding. -/
theorem claim_C10_counterexample :
    CopyWithLimit 419430400 = none := by
  rw [CopyWithLimit, copyWithLimitLoop_eq]
  decide

/-! ## Structural lemmas about the path model

These lemmas relate the string-level path functions to their slash-separated
segments: splitting after joining slash-free segments is the identity, the
segment cleaner emits the upward ".." steps only as a leading run, and a
cleaned relative path is therefore invalid as a fs.ValidPath exactly when it
still begins with an upward step. -/

theorem splitSlashAux_append (l1 : List Char) (h : ∀ c ∈ l1, ¬ c = '/') :
    ∀ r cur, splitSlashAux (l1 ++ r) cur = splitSlashAux r (l1.reverse ++ cur) := by
  induction l1 with
  | nil => intro r cur; simp
  | cons c t ih =>
      intro r cur
      have hc : ¬ c = '/' := h c (List.mem_cons_self c t)
      have ht : ∀ x ∈ t, ¬ x = '/' := fun x hx => h x (List.mem_cons_of_mem c hx)
      have h1 : splitSlashAux (c :: (t ++ r)) cur = splitSlashAux (t ++ r) (c :: cur) := by
        simp [splitSlashAux, hc]
      rw [List.cons_append, h1, ih ht r (c :: cur)]
      simp [List.append_assoc]

theorem splitSlash_singleton (s : String) (h : ∀ c ∈ s.data, ¬ c = '/') :
    splitSlash s = [s] := by
  obtain ⟨l⟩ := s
  show splitSlashAux l [] = [String.mk l]
  have h2 := splitSlashAux_append l h [] []
  rw [List.append_nil] at h2
  rw [h2]
  simp [splitSlashAux]

theorem string_data_append (a b : String) : (a ++ b).data = a.data ++ b.data := rfl

theorem splitSlash_joinSlash (segs : List String) (hne : segs ≠ [])
    (h : ∀ x ∈ segs, ∀ c ∈ x.data, ¬ c = '/') :
    splitSlash (joinSlash segs) = segs := by
  induction segs with
  | nil => exact absurd rfl hne
  | cons a rest ih =>
      cases rest with
      | nil => exact splitSlash_singleton a (h a (List.mem_cons_self a []))
      | cons r rs =>
          have hjoin : joinSlash (a :: r :: rs) = a ++ "/" ++ joinSlash (r :: rs) := rfl
          have hd : (a ++ "/" ++ joinSlash (r :: rs)).data
              = a.data ++ ('/' :: (joinSlash (r :: rs)).data) := by
            rw [string_data_append, string_data_append]
            simp [List.append_assoc]
          have ha : ∀ c ∈ a.data, ¬ c = '/' := h a (List.mem_cons_self a _)
          have hrest : ∀ x ∈ r :: rs, ∀ c ∈ x.data, ¬ c = '/' :=
            fun x hx => h x (List.mem_cons_of_mem a hx)
          show splitSlash (joinSlash (a :: r :: rs)) = a :: r :: rs
          rw [hjoin]
          show splitSlashAux (a ++ "/" ++ joinSlash (r :: rs)).data [] = a :: r :: rs
          rw [hd, splitSlashAux_append a.data ha]
          simp only [List.append_nil]
          show String.mk a.data.reverse.reverse :: splitSlashAux (joinSlash (r :: rs)).data [] = a :: r :: rs
          rw [List.reverse_reverse]
          have h3 : splitSlashAux (joinSlash (r :: rs)).data [] = splitSlash (joinSlash (r :: rs)) := rfl
          rw [h3, ih (by simp) hrest]

theorem splitSlash_elems_slashfree_aux (l : List Char) :
    ∀ cur, (∀ c ∈ cur, ¬ c = '/') →
      ∀ x ∈ splitSlashAux l cur, ∀ c ∈ x.data, ¬ c = '/' := by
  induction l with
  | nil =>
      intro cur hcur x hx c hc
      simp only [splitSlashAux, List.mem_singleton] at hx
      subst hx
      exact hcur c (by simpa using hc)
  | cons a t ih =>
      intro cur hcur x hx c hc
      by_cases ha : a = '/'
      · subst ha
        simp only [splitSlashAux, eq_self_iff_true, if_true, List.mem_cons] at hx
        rcases hx with hx | hx
        · subst hx
          exact hcur c (by simpa using hc)
        · exact ih [] (by simp) x hx c hc
      · simp only [splitSlashAux, if_neg ha] at hx
        refine ih (a :: cur) ?_ x hx c hc
        intro d hd
        rcases List.mem_cons.mp hd with hd | hd
        · subst hd; exact ha
        · exact hcur d hd

theorem splitSlash_elems_slashfree (s : String) :
    ∀ x ∈ splitSlash s, ∀ c ∈ x.data, ¬ c = '/' :=
  splitSlash_elems_slashfree_aux s.data [] (by simp)

theorem cleanPush_drop (acc : List String) (seg : String) (h : seg = "" ∨ seg = ".") :
    cleanPush false acc seg = acc := by
  simp only [cleanPush]
  rw [if_pos h]

theorem cleanPush_dotdot_nil : cleanPush false [] ".." = [".."] := rfl

theorem cleanPush_dotdot_dotdot (t : List String) :
    cleanPush false (".." :: t) ".." = ".." :: ".." :: t := by
  simp [cleanPush]

theorem cleanPush_dotdot_pop (f : String) (t : List String) (hf : ¬ f = "..") :
    cleanPush false (f :: t) ".." = t := by
  simp [cleanPush, hf]

theorem cleanPush_normal (acc : List String) (seg : String)
    (h1 : ¬ (seg = "" ∨ seg = ".")) (h2 : ¬ seg = "..") :
    cleanPush false acc seg = seg :: acc := by
  simp only [cleanPush]
  rw [if_neg h1, if_neg h2]

theorem cleanPush_subset (acc : List String) (seg : String) :
    ∀ x ∈ cleanPush false acc seg, x = seg ∨ x = ".." ∨ x ∈ acc := by
  intro x hx
  by_cases h1 : seg = "" ∨ seg = "."
  · rw [cleanPush_drop acc seg h1] at hx
    exact Or.inr (Or.inr hx)
  · by_cases h2 : seg = ".."
    · subst h2
      cases acc with
      | nil =>
          rw [cleanPush_dotdot_nil] at hx
          simp only [List.mem_singleton] at hx
          exact Or.inl hx
      | cons f t =>
          by_cases hf : f = ".."
          · subst hf
            rw [cleanPush_dotdot_dotdot] at hx
            rcases List.mem_cons.mp hx with hx | hx
            · exact Or.inl hx
            · exact Or.inr (Or.inr hx)
          · rw [cleanPush_dotdot_pop f t hf] at hx
            exact Or.inr (Or.inr (List.mem_cons_of_mem f hx))
    · rw [cleanPush_normal acc seg h1 h2] at hx
      rcases List.mem_cons.mp hx with hx | hx
      · exact Or.inl hx
      · exact Or.inr (Or.inr hx)

theorem cleanFold_structure (segs : List String) :
    ∀ acc front k, acc = front ++ List.replicate k ".." →
      (∀ x ∈ front, ¬ degenerateSeg x) →
      ∃ front2 k2, segs.foldl (cleanPush false) acc = front2 ++ List.replicate k2 ".." ∧
        ∀ x ∈ front2, ¬ degenerateSeg x := by
  induction segs with
  | nil =>
      intro acc front k hacc hfront
      exact ⟨front, k, by simpa using hacc, hfront⟩
  | cons seg rest ih =>
      intro acc front k hacc hfront
      simp only [List.foldl_cons]
      by_cases h1 : seg = "" ∨ seg = "."
      · rw [cleanPush_drop acc seg h1]
        exact ih acc front k hacc hfront
      · by_cases h2 : seg = ".."
        · subst h2
          cases hf : front with
          | nil =>
              cases k with
              | zero =>
                  have hacc0 : acc = [] := by rw [hacc, hf]; simp
                  rw [hacc0, cleanPush_dotdot_nil]
                  exact ih [".."] [] 1 (by simp) (by simp)
              | succ k0 =>
                  have hacc0 : acc = ".." :: List.replicate k0 ".." := by
                    rw [hacc, hf]
                    simp [List.replicate_succ]
                  rw [hacc0, cleanPush_dotdot_dotdot]
                  refine ih (".." :: ".." :: List.replicate k0 "..") [] (k0 + 2) ?_ (by simp)
                  simp [List.replicate_succ]
          | cons f fs =>
              have hfd : ¬ degenerateSeg f := hfront f (hf ▸ List.mem_cons_self f fs)
              have hfne : ¬ f = ".." := fun hx => hfd (Or.inr (Or.inr hx))
              have hacc0 : acc = f :: (fs ++ List.replicate k "..") := by
                rw [hacc, hf]
                simp
              rw [hacc0, cleanPush_dotdot_pop f _ hfne]
              exact ih (fs ++ List.replicate k "..") fs k rfl
                (fun x hx => hfront x (hf ▸ List.mem_cons_of_mem f hx))
        · rw [cleanPush_normal acc seg h1 h2, hacc]
          refine ih (seg :: (front ++ List.replicate k "..")) (seg :: front) k rfl ?_
          intro x hx
          rcases List.mem_cons.mp hx with hx | hx
          · subst hx
            intro hdeg
            rcases hdeg with hx | hx | hx
            · exact h1 (Or.inl hx)
            · exact h1 (Or.inr hx)
            · exact h2 hx
          · exact hfront x hx

theorem cleanSegs_structure (segs : List String) :
    ∃ k front, cleanSegs false segs = List.replicate k ".." ++ front ∧
      ∀ x ∈ front, ¬ degenerateSeg x := by
  obtain ⟨front2, k2, heq, hfront⟩ := cleanFold_structure segs [] [] 0 (by simp) (by simp)
  refine ⟨k2, front2.reverse, ?_, ?_⟩
  · rw [cleanSegs, heq]
    simp
  · intro x hx
    exact hfront x (by simpa using hx)

theorem dotdot_slashfree : ∀ c ∈ (".." : String).data, ¬ c = '/' := by
  intro c hc
  have : c = '.' := by
    simpa using (List.mem_pair.mp hc).elim (fun h => h) (fun h => h)
  subst this
  decide

theorem cleanFold_slashfree (segs : List String)
    (hsegs : ∀ x ∈ segs, ∀ c ∈ x.data, ¬ c = '/') :
    ∀ acc, (∀ x ∈ acc, ∀ c ∈ x.data, ¬ c = '/') →
      ∀ x ∈ segs.foldl (cleanPush false) acc, ∀ c ∈ x.data, ¬ c = '/' := by
  induction segs with
  | nil => intro acc hacc; simpa using hacc
  | cons seg rest ih =>
      intro acc hacc
      simp only [List.foldl_cons]
      have hseg : ∀ c ∈ seg.data, ¬ c = '/' := hsegs seg (List.mem_cons_self seg rest)
      have hrest : ∀ x ∈ rest, ∀ c ∈ x.data, ¬ c = '/' :=
        fun x hx => hsegs x (List.mem_cons_of_mem seg hx)
      refine ih hrest (cleanPush false acc seg) ?_
      intro x hx
      rcases cleanPush_subset acc seg x hx with hx | hx | hx
      · subst hx; exact hseg
      · subst hx; exact dotdot_slashfree
      · exact hacc x hx

theorem cleanSegs_slashfree (segs : List String)
    (hsegs : ∀ x ∈ segs, ∀ c ∈ x.data, ¬ c = '/') :
    ∀ x ∈ cleanSegs false segs, ∀ c ∈ x.data, ¬ c = '/' := by
  intro x hx
  exact cleanFold_slashfree segs hsegs [] (by simp) x (by simpa [cleanSegs] using hx)

/-! ## Characterisation of joinSubPath failures

joinSubPath path-cleans the concatenation of a canonical sub-path and a
local relative path; the lemmas below show that the result fails
fs.ValidPath exactly when it still begins with an upward ".." step, i.e.
exactly when the relative path escaped above the package root. -/

theorem str_eq_empty_iff (s : String) : s = "" ↔ s.data = [] := by
  constructor
  · intro h
    rw [h]
  · intro h
    obtain ⟨l⟩ := s
    have h2 : l = [] := h
    subst h2
    rfl

theorem looksLikeLocal_shape (rel : String) (h : looksLikeLocalSource rel = true) :
    rel ≠ "" ∧ isRooted rel = false := by
  obtain ⟨l⟩ := rel
  simp only [looksLikeLocalSource, Bool.or_eq_true] at h
  have hshape : ∃ t1, l = '.' :: t1 := by
    rcases h with h | h
    · have hp : ('.' :: '/' :: []) <+: l := by
        have := (List.isPrefixOf_iff_prefix).mp h
        simpa using this
      obtain ⟨t, ht⟩ := hp
      exact ⟨'/' :: t, by simpa using ht.symm⟩
    · have hp : ('.' :: '.' :: '/' :: []) <+: l := by
        have := (List.isPrefixOf_iff_prefix).mp h
        simpa using this
      obtain ⟨t, ht⟩ := hp
      exact ⟨'.' :: '/' :: t, by simpa using ht.symm⟩
  obtain ⟨t1, ht1⟩ := hshape
  subst ht1
  constructor
  · intro hcon
    exact absurd ((str_eq_empty_iff _).mp hcon) (by simp)
  · rfl

theorem validPath_not_rooted (s : String) (h : goValidPath s = true) :
    isRooted s = false := by
  obtain ⟨l⟩ := s
  cases l with
  | nil => rfl
  | cons c t =>
      by_cases hc : c = '/'
      · subst hc
        exfalso
        have hdot : String.mk ('/' :: t) ≠ "." := by
          intro hcon
          have : ('/' :: t) = ['.'] := by
            have := congrArg String.data hcon
            simpa using this
          simp at this
        rw [goValidPath, if_neg hdot] at h
        have hsplit : splitSlash (String.mk ('/' :: t)) = "" :: splitSlashAux t [] := rfl
        rw [hsplit] at h
        have := (List.all_eq_true.mp h) "" (List.mem_cons_self _ _)
        simp at this
      · show decide (c = '/') = false
        simpa using hc

theorem isRooted_append (s t : String) (h : s ≠ "") : isRooted (s ++ t) = isRooted s := by
  obtain ⟨l⟩ := s
  cases l with
  | nil => exact absurd ((str_eq_empty_iff _).mpr rfl) h
  | cons c r => rfl

theorem append_ne_empty_left (a b : String) (h : a ≠ "") : a ++ b ≠ "" := by
  intro hcon
  apply h
  rw [str_eq_empty_iff] at hcon ⊢
  rw [string_data_append] at hcon
  exact (List.append_eq_nil.mp hcon).1

theorem goPathClean_nonrooted (t : String) (h0 : t ≠ "") (h1 : isRooted t = false) :
    goPathClean t =
      if cleanSegs false (splitSlash t) = [] then "."
      else joinSlash (cleanSegs false (splitSlash t)) := by
  rw [goPathClean, if_neg h0]
  simp only [h1]
  rfl

theorem splitSlash_of_dotdotslash (s : String) (r : List Char)
    (h : s.data = '.' :: '.' :: '/' :: r) :
    splitSlash s = ".." :: splitSlashAux r [] := by
  obtain ⟨l⟩ := s
  have h2 : l = '.' :: '.' :: '/' :: r := h
  subst h2
  rfl

theorem strHasPre_dotdotslash_shape (s : String) (h : strHasPre s "../" = true) :
    ∃ r, s.data = '.' :: '.' :: '/' :: r := by
  have hp : ('.' :: '.' :: '/' :: []) <+: s.data := by
    have := (List.isPrefixOf_iff_prefix).mp h
    simpa using this
  obtain ⟨t, ht⟩ := hp
  exact ⟨t, by simpa using ht.symm⟩

theorem strHasPre_dotdotslash_of_shape (j : String) :
    strHasPre (".." ++ "/" ++ j) "../" = true := by
  show List.isPrefixOf ['.', '.', '/'] ('.' :: '.' :: '/' :: j.data) = true
  simp [List.isPrefixOf]

/-- The central characterisation: for a canonical (or empty) sub-path and a
local-looking relative path, joinSubPath fails exactly when the cleaned
concatenation still begins with an upward ".." step. -/
theorem joinSubPath_escape_iff (sub rel : String)
    (hsub : sub = "" ∨ normalizeSubpath sub = .ok sub)
    (hrel : looksLikeLocalSource rel = true) :
    (joinSubPath sub rel).isOk = false ↔
      (goPathJoin2 sub rel = ".." ∨ strHasPre (goPathJoin2 sub rel) "../" = true) := by
  obtain ⟨hrelne, hrelroot⟩ := looksLikeLocal_shape rel hrel
  -- The joined path is the clean of a non-empty, non-rooted string.
  obtain ⟨t, hteq, htne, htroot⟩ :
      ∃ t, goPathJoin2 sub rel = goPathClean t ∧ t ≠ "" ∧ isRooted t = false := by
    by_cases hsub0 : sub = ""
    · refine ⟨rel, ?_, hrelne, hrelroot⟩
      rw [goPathJoin2, if_pos hsub0, if_neg hrelne]
    · have hnorm : normalizeSubpath sub = .ok sub := hsub.resolve_left hsub0
      have hvalid : goValidPath sub = true := by
        by_contra hv
        have hv2 : ¬ goValidPath sub = true := hv
        rw [normalizeSubpath, if_neg hsub0, if_pos (by simpa using hv2)] at hnorm
        exact Except.noConfusion hnorm
      refine ⟨sub ++ "/" ++ rel, ?_, ?_, ?_⟩
      · rw [goPathJoin2, if_neg hsub0, if_neg hrelne]
      · exact append_ne_empty_left _ _ (append_ne_empty_left _ _ hsub0)
      · rw [isRooted_append _ _ (append_ne_empty_left _ _ hsub0),
          isRooted_append _ _ hsub0]
        exact validPath_not_rooted sub hvalid
  obtain ⟨k, front, hcs, hfront⟩ := cleanSegs_structure (splitSlash t)
  have hsf : ∀ x ∈ cleanSegs false (splitSlash t), ∀ c ∈ x.data, ¬ c = '/' :=
    cleanSegs_slashfree (splitSlash t) (splitSlash_elems_slashfree t)
  rw [goPathClean_nonrooted t htne htroot] at hteq
  by_cases hcse : cleanSegs false (splitSlash t) = []
  · -- The join collapsed to the package root.
    rw [if_pos hcse] at hteq
    rw [joinSubPath, if_pos hteq]
    constructor
    · intro hcon
      exact absurd hcon (by decide)
    · intro hcon
      exfalso
      rw [hteq] at hcon
      rcases hcon with hcon | hcon
      · exact absurd hcon (by decide)
      · obtain ⟨r, hr⟩ := strHasPre_dotdotslash_shape _ hcon
        have h2 : (("." : String)).data = '.' :: '.' :: '/' :: r := hr
        simp at h2
  · rw [if_neg hcse] at hteq
    have hsplit : splitSlash (goPathJoin2 sub rel) = cleanSegs false (splitSlash t) := by
      rw [hteq]
      exact splitSlash_joinSlash _ hcse hsf
    have hnodot : goPathJoin2 sub rel ≠ "." := by
      intro hcon
      have h2 : cleanSegs false (splitSlash t) = ["."] := by
        rw [← hsplit, hcon]
        rfl
      rw [h2] at hcs
      have hmem : ("." : String) ∈ List.replicate k ".." ++ front := by
        rw [← hcs]
        simp
      rcases List.mem_append.mp hmem with hmem | hmem
      · have := List.eq_of_mem_replicate hmem
        simp at this
      · exact hfront "." hmem (Or.inr (Or.inl rfl))
    cases k with
    | zero =>
        -- No upward steps remain: the join is valid and did not escape.
        simp only [List.replicate_zero, List.nil_append] at hcs
        have hvalid : goValidPath (goPathJoin2 sub rel) = true := by
          rw [goValidPath, if_neg hnodot]
          refine List.all_eq_true.mpr ?_
          intro x hx
          rw [hsplit, hcs] at hx
          have := hfront x hx
          simpa [degenerateSeg] using this
        have hcond : ¬ ¬ (goValidPath (goPathJoin2 sub rel) = true) := by
          simp [hvalid]
        rw [joinSubPath, if_neg hnodot, if_neg hcond]
        constructor
        · intro hcon
          simp [Except.isOk, Except.toBool] at hcon
        · intro hcon
          exfalso
          rcases hcon with hcon | hcon
          · have h2 : cleanSegs false (splitSlash t) = [".."] := by
              rw [← hsplit, hcon]
              rfl
            rw [h2] at hcs
            have : (".." : String) ∈ front := by
              rw [← hcs]
              simp
            exact hfront ".." this (Or.inr (Or.inr rfl))
          · obtain ⟨r, hr⟩ := strHasPre_dotdotslash_shape _ hcon
            have h2 : splitSlash (goPathJoin2 sub rel) = ".." :: splitSlashAux r [] :=
              splitSlash_of_dotdotslash _ r hr
            have h3 : (".." : String) ∈ front := by
              rw [← hcs, ← hsplit, h2]
              simp
            exact hfront ".." h3 (Or.inr (Or.inr rfl))
    | succ k0 =>
        -- An upward step survived cleaning: the join escaped the package.
        have hcons : cleanSegs false (splitSlash t)
            = ".." :: (List.replicate k0 ".." ++ front) := by
          rw [hcs, List.replicate_succ]
          rfl
        have hinvalid : goValidPath (goPathJoin2 sub rel) = false := by
          rw [goValidPath, if_neg hnodot, Bool.eq_false_iff]
          intro hall
          have := List.all_eq_true.mp hall ".."
            (by rw [hsplit, hcons]; exact List.mem_cons_self _ _)
          simp at this
        have hcond2 : ¬ (goValidPath (goPathJoin2 sub rel) = true) := by
          simp [hinvalid]
        rw [joinSubPath, if_neg hnodot, if_pos hcond2]
        constructor
        · intro _
          cases hrest : List.replicate k0 ".." ++ front with
          | nil =>
              left
              rw [hteq, hcons, hrest]
              rfl
          | cons r1 rest1 =>
              right
              rw [hteq, hcons, hrest]
              exact strHasPre_dotdotslash_of_shape (joinSlash (r1 :: rest1))
        · intro _
          rfl

/-! ## Claim C9: determinism of SourceForLocalPath -/

/-- Step behaviour of the selection loop on a non-matching entry. -/
theorem pickStep_skip (dir : String) (acc : Option RemotePackage)
    (e : RemotePackage × String) (h : ¬ e.2 = dir) : pickStep dir acc e = acc := by
  simp [pickStep, h]

/-- Step behaviour of the selection loop on the first matching entry. -/
theorem pickStep_none (dir : String) (e : RemotePackage × String) (h : e.2 = dir) :
    pickStep dir none e = some e.1 := by
  simp [pickStep, h]

/-- Step behaviour: a strictly longer candidate is skipped. -/
theorem pickStep_keep (dir : String) (cur : RemotePackage) (e : RemotePackage × String)
    (h : e.2 = dir)
    (hlen : (remotePackageString e.1).length > (remotePackageString cur).length) :
    pickStep dir (some cur) e = some cur := by
  simp [pickStep, h, hlen]

/-- Step behaviour: a candidate no longer than the current one replaces it. -/
theorem pickStep_replace (dir : String) (cur : RemotePackage) (e : RemotePackage × String)
    (h : e.2 = dir)
    (hlen : ¬ (remotePackageString e.1).length > (remotePackageString cur).length) :
    pickStep dir (some cur) e = some e.1 := by
  simp [pickStep, h, hlen]

/-- Fold invariant for the selection loop: a produced candidate matched the
directory, and its address string is never longer than that of any matching
entry. -/
theorem pickPackage_min (dir : String) :
    ∀ (entries : List (RemotePackage × String)) (acc : Option RemotePackage)
      (pkg : RemotePackage),
      entries.foldl (pickStep dir) acc = some pkg →
      (∀ q ∈ entries, q.2 = dir →
          (remotePackageString pkg).length ≤ (remotePackageString q.1).length) ∧
        ((pkg, dir) ∈ entries ∨ acc = some pkg) ∧
        (∀ cur, acc = some cur →
          (remotePackageString pkg).length ≤ (remotePackageString cur).length) := by
  intro entries
  induction entries with
  | nil =>
      intro acc pkg h
      refine ⟨by simp, Or.inr (by simpa using h), ?_⟩
      intro cur hcur
      have h2 : some cur = some pkg := by rw [← hcur]; simpa using h
      injection h2 with h3
      rw [h3]
  | cons e rest ih =>
      intro acc pkg h
      simp only [List.foldl_cons] at h
      by_cases hdir : e.2 = dir
      · cases hacc : acc with
        | none =>
            rw [hacc, pickStep_none dir e hdir] at h
            obtain ⟨hmin, hmem, hany⟩ := ih (some e.1) pkg h
            refine ⟨?_, ?_, ?_⟩
            · intro q hq hqdir
              rcases List.mem_cons.mp hq with hq | hq
              · rw [hq]
                exact hany e.1 rfl
              · exact hmin q hq hqdir
            · rcases hmem with hmem | hmem
              · exact Or.inl (List.mem_cons_of_mem e hmem)
              · injection hmem with h3
                refine Or.inl ?_
                have he : e = (pkg, dir) := by
                  rcases e with ⟨e1, e2⟩
                  simp only at h3 hdir
                  rw [h3, hdir]
                rw [← he]
                exact List.mem_cons_self e rest
            · intro cur hcur
              exact Option.noConfusion hcur
        | some cur0 =>
            by_cases hlen :
                (remotePackageString e.1).length > (remotePackageString cur0).length
            · rw [hacc, pickStep_keep dir cur0 e hdir hlen] at h
              obtain ⟨hmin, hmem, hany⟩ := ih (some cur0) pkg h
              refine ⟨?_, ?_, ?_⟩
              · intro q hq hqdir
                rcases List.mem_cons.mp hq with hq | hq
                · rw [hq]
                  have := hany cur0 rfl
                  omega
                · exact hmin q hq hqdir
              · rcases hmem with hmem | hmem
                · exact Or.inl (List.mem_cons_of_mem e hmem)
                · exact Or.inr (hacc ▸ hmem)
              · intro cur hcur
                have h4 : cur = cur0 := by
                  injection hcur with h6
                  exact h6.symm
                rw [h4]
                exact hany cur0 rfl
            · rw [hacc, pickStep_replace dir cur0 e hdir hlen] at h
              obtain ⟨hmin, hmem, hany⟩ := ih (some e.1) pkg h
              refine ⟨?_, ?_, ?_⟩
              · intro q hq hqdir
                rcases List.mem_cons.mp hq with hq | hq
                · rw [hq]
                  exact hany e.1 rfl
                · exact hmin q hq hqdir
              · rcases hmem with hmem | hmem
                · exact Or.inl (List.mem_cons_of_mem e hmem)
                · injection hmem with h3
                  refine Or.inl ?_
                  have he : e = (pkg, dir) := by
                    rcases e with ⟨e1, e2⟩
                    simp only at h3 hdir
                    rw [h3, hdir]
                  rw [← he]
                  exact List.mem_cons_self e rest
              · intro cur hcur
                have h4 : cur = cur0 := by
                  injection hcur with h6
                  exact h6.symm
                have h6 := hany e.1 rfl
                rw [h4]
                omega
      · rw [pickStep_skip dir acc e hdir] at h
        obtain ⟨hmin, hmem, hany⟩ := ih acc pkg h
        refine ⟨?_, ?_, ?_⟩
        · intro q hq hqdir
          rcases List.mem_cons.mp hq with hq | hq
          · exact absurd (hq ▸ hqdir) hdir
          · exact hmin q hq hqdir
        · rcases hmem with hmem | hmem
          · exact Or.inl (List.mem_cons_of_mem e hmem)
          · exact Or.inr hmem
        · exact hany

/-- Claim C9 (corrected): when SourceForLocalPath succeeds, the returned
package is one of the packages mapped to the path's local directory, and its
stringified address has minimal length among all of them; the code selects
by string length, not lexicographic order, with ties broken by iteration
order, so the counterexample shows two iteration orders of the same map
yielding different results. -/
theorem claim_C9_minimal_length (cwd : String) (b : BundleModel) (p : String)
    (src : RemoteSource) (h : sourceForLocalPath cwd b p = .ok src) :
    ∃ dir, (src.pkg, dir) ∈ b.remotePackageDirs ∧
      ∀ q ∈ b.remotePackageDirs, q.2 = dir →
        (remotePackageString src.pkg).length ≤ (remotePackageString q.1).length := by
  rw [sourceForLocalPath] at h
  split at h
  · exact Except.noConfusion h
  · rename_i relPath hrelEq
    split at h
    · exact Except.noConfusion h
    · split at h
      · exact Except.noConfusion h
      · rename_i pkgAddr hpick
        split at h
        · exact Except.noConfusion h
        · rename_i sp hsp
          injection h with h1
          obtain ⟨hmin, hmem, _⟩ :=
            pickPackage_min (strCutSlash (goPathClean relPath)).1
              b.remotePackageDirs none pkgAddr hpick
          refine ⟨(strCutSlash (goPathClean relPath)).1, ?_, ?_⟩
          · rcases hmem with hmem | hmem
            · rw [← h1]
              exact hmem
            · exact absurd hmem (by simp)
          · intro q hq hqdir
            rw [← h1]
            exact hmin q hq hqdir

/-- Claim C9 witness: the minimal-length property at a concrete bundle whose
two packages share the directory d. -/
theorem claim_C9_witness :
    ∃ dir,
      ((⟨⟨"https", ⟨"https", "bb.example/p"⟩⟩, "x"⟩ : RemoteSource).pkg, dir) ∈
          [((⟨"https", ⟨"https", "aa.example/p"⟩⟩ : RemotePackage), "d"),
           ((⟨"https", ⟨"https", "bb.example/p"⟩⟩ : RemotePackage), "d")] ∧
        ∀ q ∈ [((⟨"https", ⟨"https", "aa.example/p"⟩⟩ : RemotePackage), "d"),
               ((⟨"https", ⟨"https", "bb.example/p"⟩⟩ : RemotePackage), "d")], q.2 = dir →
          (remotePackageString
              (⟨⟨"https", ⟨"https", "bb.example/p"⟩⟩, "x"⟩ : RemoteSource).pkg).length
            ≤ (remotePackageString q.1).length :=
  claim_C9_minimal_length "/"
    ⟨"/bundle",
      [(⟨"https", ⟨"https", "aa.example/p"⟩⟩, "d"),
       (⟨"https", ⟨"https", "bb.example/p"⟩⟩, "d")]⟩
    "/bundle/d/x" ⟨⟨"https", ⟨"https", "bb.example/p"⟩⟩, "x"⟩ rfl

/-- Claim C9 counterexample: the same package map presented in two iteration
orders makes SourceForLocalPath return two different addresses for the same
path, because the two candidate addresses have equal string length and the
last candidate in iteration order wins; the result is therefore neither the
lexicographically least address nor independent of map iteration order. -/
theorem claim_C9_counterexample :
    sourceForLocalPath "/"
        ⟨"/bundle",
          [(⟨"https", ⟨"https", "aa.example/p"⟩⟩, "d"),
           (⟨"https", ⟨"https", "bb.example/p"⟩⟩, "d")]⟩
        "/bundle/d/x"
      = .ok ⟨⟨"https", ⟨"https", "bb.example/p"⟩⟩, "x"⟩ ∧
    sourceForLocalPath "/"
        ⟨"/bundle",
          [(⟨"https", ⟨"https", "bb.example/p"⟩⟩, "d"),
           (⟨"https", ⟨"https", "aa.example/p"⟩⟩, "d")]⟩
        "/bundle/d/x"
      = .ok ⟨⟨"https", ⟨"https", "aa.example/p"⟩⟩, "x"⟩ ∧
    List.Perm
      [((⟨"https", ⟨"https", "aa.example/p"⟩⟩ : RemotePackage), "d"),
       ((⟨"https", ⟨"https", "bb.example/p"⟩⟩ : RemotePackage), "d")]
      [(⟨"https", ⟨"https", "bb.example/p"⟩⟩, "d"),
       (⟨"https", ⟨"https", "aa.example/p"⟩⟩, "d")] ∧
    (⟨"https", ⟨"https", "aa.example/p"⟩⟩ : RemotePackage)
      ≠ ⟨"https", ⟨"https", "bb.example/p"⟩⟩ :=
  ⟨rfl, rfl, List.Perm.swap _ _ _, by decide⟩

/-! ## Claim C6: permanent poisoning of the builder -/

/-- Claim C6 (confirmed): a poisoned builder (targetDir cleared, the state
after Close or after any error-producing add) makes every add call panic
without changing any state; every add call whose diagnostics contain an
error leaves the builder poisoned; and Close poisons the builder.  Together
these show that after an error-producing add or a close, every subsequent
add fails loudly and never mutates the queues, indices or bundle
directory. -/
theorem claim_C6_builder_poisoning :
    (∀ co fuel b addr fi, b.targetDir = "" →
      addRemoteSource co fuel b addr fi = (.panicked, b)) ∧
    (∀ co fuel b addr allowed fi, b.targetDir = "" →
      addRegistrySource co fuel b addr allowed fi = (.panicked, b)) ∧
    (∀ co fuel b addr v fi, b.targetDir = "" →
      addFinalRegistrySource co fuel b addr v fi = (.panicked, b)) ∧
    (∀ co fuel b addr fi out b2,
      addRemoteSource co fuel b addr fi = (.completed out, b2) →
      diagsHasErrors out = true → b2.targetDir = "") ∧
    (∀ co fuel b addr allowed fi out b2,
      addRegistrySource co fuel b addr allowed fi = (.completed out, b2) →
      diagsHasErrors out = true → b2.targetDir = "") ∧
    (∀ co fuel b addr v fi out b2,
      addFinalRegistrySource co fuel b addr v fi = (.completed out, b2) →
      diagsHasErrors out = true → b2.targetDir = "") ∧
    (∀ b, (closeBuilder b).2.targetDir = "") := by
  have hreg : ∀ co fuel b addr allowed fi out b2,
      addRegistrySource co fuel b addr allowed fi = (.completed out, b2) →
      diagsHasErrors out = true → b2.targetDir = "" := by
    intro co fuel b addr allowed fi out b2 h hErr
    rw [addRegistrySource] at h
    split at h
    · exact absurd (congrArg Prod.fst h) (by simp)
    · injection h with h1 h2
      injection h1 with hout
      rw [← h2, resolvePending]
      rw [← hout] at hErr
      rw [resolvePending] at hErr
      simp only at hErr
      simp only [hErr, if_true]
  refine ⟨?_, ?_, ?_, ?_, hreg, ?_, ?_⟩
  · intro co fuel b addr fi h
    rw [addRemoteSource, if_pos h]
  · intro co fuel b addr allowed fi h
    rw [addRegistrySource, if_pos h]
  · intro co fuel b addr v fi h
    rw [addFinalRegistrySource, addRegistrySource, if_pos h]
  · intro co fuel b addr fi out b2 h hErr
    rw [addRemoteSource] at h
    split at h
    · exact absurd (congrArg Prod.fst h) (by simp)
    · split at h
      · injection h with h1 h2
        injection h1 with hout
        rw [← hout] at hErr
        simp [diagsHasErrors] at hErr
      · injection h with h1 h2
        injection h1 with hout
        rw [← h2, resolvePending]
        rw [← hout] at hErr
        rw [resolvePending] at hErr
        simp only at hErr
        simp only [hErr, if_true]
  · intro co fuel b addr v fi out b2 h hErr
    exact hreg co fuel b addr [v] fi out b2 h hErr
  · intro b
    rw [closeBuilder]
    split
    · rename_i h
      exact h
    · rfl

/-- Claim C6 witness: a concrete poisoned builder state on which all three
add calls panic and leave the state unchanged. -/
theorem claim_C6_witness :
    addRemoteSource
        ⟨fun _ => .error "offline", fun _ _ => .error "offline",
         fun _ => .error "offline", fun _ _ => ([], [])⟩
        5 ⟨"", [], [], [], [], [], [], []⟩
        ⟨⟨"git", ⟨"https", "example.com/a.git"⟩⟩, ""⟩ 0
      = (.panicked, ⟨"", [], [], [], [], [], [], []⟩) ∧
    addRegistrySource
        ⟨fun _ => .error "offline", fun _ _ => .error "offline",
         fun _ => .error "offline", fun _ _ => ([], [])⟩
        5 ⟨"", [], [], [], [], [], [], []⟩
        ⟨⟨"registry.terraform.io", "a", "b", "c"⟩, ""⟩ [1] 0
      = (.panicked, ⟨"", [], [], [], [], [], [], []⟩) ∧
    addFinalRegistrySource
        ⟨fun _ => .error "offline", fun _ _ => .error "offline",
         fun _ => .error "offline", fun _ _ => ([], [])⟩
        5 ⟨"", [], [], [], [], [], [], []⟩
        ⟨⟨"registry.terraform.io", "a", "b", "c"⟩, ""⟩ 1 0
      = (.panicked, ⟨"", [], [], [], [], [], [], []⟩) :=
  ⟨claim_C6_builder_poisoning.1 _ 5 _ _ 0 rfl,
   claim_C6_builder_poisoning.2.1 _ 5 _ _ [1] 0 rfl,
   claim_C6_builder_poisoning.2.2.1 _ 5 _ _ 1 0 rfl⟩

/-! ## Claim C4: determinism and sortedness of the written manifest -/

/-- Claim C4 (code bug): the packages array is sorted by its own source
addresses, but the registry array is not sorted by the registry packages'
addresses: the comparator passed to its sort.Slice call reads root.Packages
instead of root.RegistryMeta, so a builder whose resolved-registry map
iterates out of lexical order writes the registry array unsorted (here
example.com/z/z/z before example.com/y/y/y although y sorts before z), and a
builder with more registry packages than remote packages makes the
comparator index out of range (a runtime panic, modelled by none). -/
theorem claim_C4_registry_sort_bug :
    writeManifest
        ⟨"/bundle", [], [], [],
         [(⟨"https", ⟨"https", "a.example/p"⟩⟩, "da"),
          (⟨"https", ⟨"https", "b.example/p"⟩⟩, "db")],
         [],
         [((⟨"example.com", "z", "z", "z"⟩, 1), ⟨⟨"https", ⟨"https", "a.example/p"⟩⟩, ""⟩),
          ((⟨"example.com", "y", "y", "y"⟩, 1), ⟨⟨"https", ⟨"https", "a.example/p"⟩⟩, ""⟩)],
         []⟩
      = some ⟨1,
          [⟨"https://a.example/p", "da", ""⟩, ⟨"https://b.example/p", "db", ""⟩],
          [⟨"example.com/z/z/z", [("1", "https://a.example/p")]⟩,
           ⟨"example.com/y/y/y", [("1", "https://a.example/p")]⟩]⟩ ∧
    strLt "example.com/y/y/y" "example.com/z/z/z" = true ∧
    writeManifest
        ⟨"/bundle", [], [], [],
         [(⟨"https", ⟨"https", "a.example/p"⟩⟩, "da")],
         [],
         [((⟨"example.com", "z", "z", "z"⟩, 1), ⟨⟨"https", ⟨"https", "a.example/p"⟩⟩, ""⟩),
          ((⟨"example.com", "y", "y", "y"⟩, 1), ⟨⟨"https", ⟨"https", "a.example/p"⟩⟩, ""⟩)],
         []⟩
      = none :=
  ⟨by decide, by decide, by decide⟩

/-! ## Claim C8: upward traversal from an absolute base -/

/-- Claim C8 (confirmed): resolving the relative path ../../../baz against
the base git::https://github.com/hashicorp/go-slug.git//beep/boop fails with
an error containing "traverses up too many levels from source path
beep/boop"; and in general, for any remote base with a canonical sub-path
and any local relative path, resolution fails exactly when the path-cleaned
concatenation of sub-path and relative path escapes above the package root
(it is ".." or begins with "../"). -/
theorem claim_C8_traversal_error :
    (resolveRelativeSource
        (.remoteSrc ⟨⟨"git", ⟨"https", "github.com/hashicorp/go-slug.git"⟩⟩, "beep/boop"⟩)
        (.localSrc ⟨"../../../baz"⟩)
      = .error "invalid traversal from git::https://github.com/hashicorp/go-slug.git//beep/boop: relative path ../../../baz traverses up too many levels from source path beep/boop") ∧
    strContains
        "invalid traversal from git::https://github.com/hashicorp/go-slug.git//beep/boop: relative path ../../../baz traverses up too many levels from source path beep/boop"
        "traverses up too many levels from source path beep/boop" = true ∧
    ∀ (pkg : RemotePackage) (sub rel : String),
      (sub = "" ∨ normalizeSubpath sub = .ok sub) →
      looksLikeLocalSource rel = true →
      ((resolveRelativeSource (.remoteSrc ⟨pkg, sub⟩) (.localSrc ⟨rel⟩)).isOk = false ↔
        (goPathJoin2 sub rel = ".." ∨ strHasPre (goPathJoin2 sub rel) "../" = true)) := by
  refine ⟨rfl, rfl, ?_⟩
  intro pkg sub rel hsub hrel
  have hres : (resolveRelativeSource (.remoteSrc ⟨pkg, sub⟩) (.localSrc ⟨rel⟩)).isOk
      = (joinSubPath sub rel).isOk := by
    cases hcase : joinSubPath sub rel with
    | error e => simp [resolveRelativeSource, hcase, Except.isOk, Except.toBool]
    | ok v => simp [resolveRelativeSource, hcase, Except.isOk, Except.toBool]
  rw [hres]
  exact joinSubPath_escape_iff sub rel hsub hrel

/-- Claim C8 witness: the general characterisation applied at the concrete
base sub-path beep/boop and relative path ../../../baz. -/
theorem claim_C8_witness :
    (resolveRelativeSource
        (.remoteSrc ⟨⟨"git", ⟨"https", "github.com/hashicorp/go-slug.git"⟩⟩, "beep/boop"⟩)
        (.localSrc ⟨"../../../baz"⟩)).isOk = false ↔
      (goPathJoin2 "beep/boop" "../../../baz" = ".." ∨
        strHasPre (goPathJoin2 "beep/boop" "../../../baz") "../" = true) :=
  claim_C8_traversal_error.2.2 ⟨"git", ⟨"https", "github.com/hashicorp/go-slug.git"⟩⟩
    "beep/boop" "../../../baz" (Or.inr rfl) rfl

/-! ## Claim C7: registry interpretation precedence over the GitLab shorthand -/

/-- Claim C7 (confirmed): parsing gitlab.com/hashicorp/go-slug/bleep yields
the registry source with host gitlab.com, namespace hashicorp, name go-slug
and target system bleep, because the module-registry branch of ParseSource
is consulted before the remote branch; the GitLab shorthand expander would
have accepted the same string (to
git::https://gitlab.com/hashicorp/go-slug.git//bleep) had the string reached
the remote branch. -/
theorem claim_C7_registry_precedence :
    parseSource "gitlab.com/hashicorp/go-slug/bleep" =
      .registrySrc ⟨⟨"gitlab.com", "hashicorp", "go-slug", "bleep"⟩, ""⟩ ∧
    gitlabShorthand "gitlab.com/hashicorp/go-slug/bleep" =
      .ok (some "git::https://gitlab.com/hashicorp/go-slug.git//bleep") :=
  ⟨rfl, rfl⟩

/-! ## Claim C5: string round-trip of source address values -/

/-- Claim C5 counterexample: resolving the local path ../.. against the
local base ./a succeeds and yields the value with relative path "./..",
whose string form the parser rejects, so the round-trip fails for a value
produced by resolve_relative from parser-produced inputs. -/
theorem claim_C5_counterexample :
    resolveRelativeSource (.localSrc ⟨"./a"⟩) (.localSrc ⟨"../.."⟩)
        = .ok (.localSrc ⟨"./.."⟩) ∧
      ParseLocalSource "./a" = .ok ⟨"./a"⟩ ∧
      ParseLocalSource "../.." = .ok ⟨"../.."⟩ ∧
      (ParseLocalSource (localSourceString ⟨"./.."⟩)).isOk = false :=
  ⟨rfl, rfl, rfl, rfl⟩

/-- Claim C5 (corrected): every local source value returned by a successful
parse stores exactly the input string, so its string form re-parses to an
equal value; the round-trip therefore holds for parser-produced values,
while resolve_relative may produce the non-canonical values "./." and
"./.." exhibited by the counterexample. -/
theorem claim_C5_parsed_local_roundtrip (s : String) (v : LocalSource)
    (h : ParseLocalSource s = .ok v) :
    localSourceString v = s ∧ ParseLocalSource (localSourceString v) = .ok v := by
  have h0 := h
  rw [ParseLocalSource] at h
  split at h
  · exact Except.noConfusion h
  · split at h
    · exact Except.noConfusion h
    · split at h
      · rename_i hc
        have hv : v = ⟨canonicalLocalPath s⟩ := by
          injection h with h1
          exact h1.symm
        have hs : localSourceString v = s := by
          rw [hv]
          exact hc
        exact ⟨hs, by rw [hs]; exact h0⟩
      · exact Except.noConfusion h

/-- Claim C5 witness: the parsed value for "./a" round-trips. -/
theorem claim_C5_witness :
    localSourceString ⟨"./a"⟩ = "./a" ∧
      ParseLocalSource (localSourceString (⟨"./a"⟩ : LocalSource)) = .ok ⟨"./a"⟩ :=
  claim_C5_parsed_local_roundtrip "./a" ⟨"./a"⟩ rfl

/-! ## Claim C1: the Unpack destination check against root containment -/

/-- Claim C1 (code bug): the entry name "../target-evil/x" unpacked into
destination "/tmp/target" cleans to the sibling path "/tmp/target-evil/x",
which escapes the destination yet passes Unpack's strings.HasPrefix check,
while the repository's own root-containment helper TargetWithinRoot correctly
classifies it as outside the root.  Unpack therefore does not reject every
entry whose cleaned destination escapes dst, contrary to the claim. -/
theorem claim_C1_unpack_prefix_check_escape :
    slugUnpackPathAllowed "/tmp/target" "../target-evil/x" = true ∧
      goPathClean (slugUnpackDestPath "/tmp/target" "../target-evil/x") =
        "/tmp/target-evil/x" ∧
      TargetWithinRoot "/tmp/target" "/tmp/target-evil/x" = some false := by
  refine ⟨by decide, by decide, by decide⟩

/-! ## Claim C2: pack/unpack round trip for symlinks -/

/-- Claim C2 (code bug): packing the repository's own test fixture (a tree
with a regular file bar.txt and a symlink sub/bar.txt -> ../bar.txt, an
internal target) stores the resolved absolute target "/src/bar.txt" as the
tar Linkname even though the symlink was acceptable as written; unpacking
therefore recreates a symlink whose target differs from the original
"../bar.txt", and unpacking into any fresh destination directory "/dst"
rejects the entry outright because the absolute Linkname fails checkSymlink
there.  Hence unpack(pack(D)) does not reproduce D for trees containing
symlinks with internal targets. -/
theorem claim_C2_symlink_roundtrip_broken :
    checkSymlink "/" [] "/src" "/src/sub/bar.txt" "../bar.txt" = true ∧
      packSymlinkLinkname "/src" "/src/sub/bar.txt" "../bar.txt" = "/src/bar.txt" ∧
      unpackSymlinkTarget
          (packSymlinkLinkname "/src" "/src/sub/bar.txt" "../bar.txt") ≠ "../bar.txt" ∧
      checkSymlink "/" [] "/dst" "sub/bar.txt"
          (packSymlinkLinkname "/src" "/src/sub/bar.txt" "../bar.txt") = false := by
  refine ⟨by decide, by decide, by decide, by decide⟩

end GoSlug
